import Mathlib

/-!
# Trampoline allocator and inline-branch patcher

A shallow embedding of `src/version/Core/Private/Trampoline.h` and
`src/version/Core/Private/Trampoline.cpp`.

* Process memory is a total byte array `Nat → Nat` indexed by address; a byte
  read is reduced modulo 256.  Access faults are not part of the model.
* `std::uintptr_t` / `std::size_t` values are naturals, arithmetic on them is
  reduced modulo `2 ^ 64` where the source computes in 64 bits.
* Signed values (`std::int8_t`, `std::int32_t`, `std::ptrdiff_t`) are integers.
* The operating system is an explicit parameter: `Env` for the patcher
  (`IsDebuggerPresent`, `VirtualProtect`) and `MemoryMap` for the region finder
  (`GetSystemInfo`, `VirtualQuery`, `VirtualAlloc`).
* A deleter (`std::function`) is a name; a call of it is recorded with its
  arguments, and what its body does to memory is not part of the model.
* `while (!IsDebuggerPresent());` spins for ever when no debugger is attached:
  such a call has no result (`none`).  With a debugger attached the loop is left
  at once and execution continues with the next statement.
-/

namespace API

/-! ## Machine integers -/

/-- Value of a byte read through a `std::int8_t*`. -/
def toInt8 (b : Nat) : Int :=
  if b % 2 ^ 8 < 2 ^ 7 then ((b % 2 ^ 8 : Nat) : Int) else ((b % 2 ^ 8 : Nat) : Int) - 2 ^ 8

/-- Value of a 32-bit pattern read as `std::int32_t`. -/
def toInt32 (n : Nat) : Int :=
  if n % 2 ^ 32 < 2 ^ 31 then ((n % 2 ^ 32 : Nat) : Int) else ((n % 2 ^ 32 : Nat) : Int) - 2 ^ 32

/-- Value of a 64-bit pattern read as `std::ptrdiff_t`. -/
def toInt64 (n : Nat) : Int :=
  if n % 2 ^ 64 < 2 ^ 63 then ((n % 2 ^ 64 : Nat) : Int) else ((n % 2 ^ 64 : Nat) : Int) - 2 ^ 64

/-- Conversion of a signed value to `std::uintptr_t` (two's complement). -/
def ofInt64 (i : Int) : Nat := (i % 2 ^ 64).toNat

/-- Bit pattern of `static_cast<std::int32_t>(i)`. -/
def ofInt32 (i : Int) : Nat := (i % 2 ^ 32).toNat

/-- Difference of two byte pointers, a `std::ptrdiff_t`. -/
def ptrdiff (a b : Nat) : Int := toInt64 (a % 2 ^ 64 + 2 ^ 64 - b % 2 ^ 64)

/-! ## Process memory -/

/-- Byte stored at an address. -/
def read8 (m : Nat → Nat) (a : Nat) : Nat := m a % 256

/-- Store one byte. -/
def write8 (m : Nat → Nat) (a v : Nat) : Nat → Nat :=
  fun x => if x = a then v % 256 else m x

/-- Store consecutive bytes from an address on (`std::memcpy`, field stores). -/
def writeBytes (m : Nat → Nat) (a : Nat) : List Nat → (Nat → Nat)
  | [] => m
  | b :: bs => writeBytes (write8 m a b) (a + 1) bs

/-- The `n` bytes stored from an address on. -/
def readBytes (m : Nat → Nat) (a : Nat) : Nat → List Nat
  | 0 => []
  | n + 1 => read8 m a :: readBytes m (a + 1) n

/-- The effect of `std::memset`. -/
def memset (m : Nat → Nat) (a v n : Nat) : Nat → Nat :=
  fun x => if a ≤ x ∧ x < a + n then v % 256 else m x

/-- Little-endian value of a byte string. -/
def ofLE : List Nat → Nat
  | [] => 0
  | b :: bs => b + 256 * ofLE bs

/-- Little-endian bytes of a 32-bit pattern. -/
def le32 (n : Nat) : List Nat :=
  [n % 256, n / 2 ^ 8 % 256, n / 2 ^ 16 % 256, n / 2 ^ 24 % 256]

/-- Little-endian bytes of a 64-bit pattern. -/
def le64 (n : Nat) : List Nat :=
  [n % 256, n / 2 ^ 8 % 256, n / 2 ^ 16 % 256, n / 2 ^ 24 % 256,
   n / 2 ^ 32 % 256, n / 2 ^ 40 % 256, n / 2 ^ 48 % 256, n / 2 ^ 56 % 256]

/-- The 32-bit pattern stored at an address (`*reinterpret_cast<std::int32_t*>`). -/
def read32 (m : Nat → Nat) (a : Nat) : Nat := ofLE (readBytes m a 4)

/-! ## Operating system -/

/-- What the patcher sees of the operating system. -/
structure Env where
  /-- Result of `IsDebuggerPresent()`. -/
  debugger : Bool
  /-- Whether `VirtualProtect(addr, size, PAGE_EXECUTE_READWRITE, ..)` succeeds. -/
  virtualProtect : Nat → Nat → Bool

/-- What the region finder sees of the operating system. -/
structure MemoryMap where
  /-- Value of `dwAllocationGranularity`, a `std::uint32_t`. -/
  granularity : Nat
  /-- Result of `VirtualQuery`: `none` when it returns 0, otherwise `BaseAddress`,
  `RegionSize` and whether `State == MEM_FREE`. -/
  virtualQuery : Nat → Option (Nat × Nat × Bool)
  /-- Result of `VirtualAlloc(addr, size, MEM_COMMIT | MEM_RESERVE, PAGE_EXECUTE_READWRITE)`:
  the pointer returned, 0 for a null pointer. -/
  virtualAlloc : Nat → Nat → Nat

/-! ## Region finder -/

namespace detail

def roundup (a_number a_multiple : Nat) : Nat :=
  if a_multiple = 0 then 0
  else
    let remainder := a_number % a_multiple
    if remainder = 0 then a_number else (a_number + a_multiple - remainder) % 2 ^ 64

def rounddown (a_number a_multiple : Nat) : Nat :=
  if a_multiple = 0 then 0
  else
    let remainder := a_number % a_multiple
    if remainder = 0 then a_number else a_number - remainder

end detail

/-- The `do { .. } while (min < max)` loop of `do_create`, started with cursor
`min`.  The result is the pointer returned (0 for `nullptr`), or `none` when
the loop has not ended after `fuel` iterations. -/
def do_create_loop (os : MemoryMap) (a_size max : Nat) : Nat → Nat → Option Nat
  | 0, _ => none
  | fuel + 1, min =>
    match os.virtualQuery min with
    | none => some 0
    | some (baseAddr, regionSize, isFree) =>
      let min1 := (baseAddr + regionSize) % 2 ^ 64
      let mem :=
        if isFree then
          let addr := detail.roundup baseAddr os.granularity
          if addr < min1 ∧ min1 - addr ≥ a_size then os.virtualAlloc addr a_size else 0
        else 0
      if mem ≠ 0 then some mem
      else if min1 < max then do_create_loop os a_size max fuel min1
      else some 0

/-- Lower scan bound of `do_create` (its initial `min`). -/
def scan_min (os : MemoryMap) (a_address : Nat) : Nat :=
  let minRange := 2 ^ 30 * 2
  if a_address ≥ minRange then detail.roundup (a_address - minRange) os.granularity else 0

/-- Upper scan bound of `do_create` (its `max`). -/
def scan_max (os : MemoryMap) (a_address : Nat) : Nat :=
  let minRange := 2 ^ 30 * 2
  let maxAddr := 2 ^ 64 - 1
  if a_address < maxAddr - minRange then detail.rounddown (a_address + minRange) os.granularity
  else maxAddr

def do_create (os : MemoryMap) (fuel a_size a_address : Nat) : Option Nat :=
  do_create_loop os a_size (scan_max os a_address) fuel (scan_min os a_address)

/-! ## The trampoline object -/

/-- The `Trampoline` object together with the process memory it patches and the
record of the calls made to deleters.  A deleter (`std::function`) is named by
a number; `none` is the empty `std::function`.  A `std::map` is the list of its
key/value pairs. -/
structure Trampoline where
  mem : Nat → Nat
  deleted : List (Nat × Nat × Nat)
  _5branches : List (Nat × Nat)
  _6branches : List (Nat × Nat)
  _deleter : Option Nat
  _data : Nat
  _capacity : Nat
  _size : Nat

/-- Default-constructed object over a given memory. -/
def Trampoline.init (m : Nat → Nat) : Trampoline :=
  { mem := m, deleted := [], _5branches := [], _6branches := [], _deleter := none,
    _data := 0, _capacity := 0, _size := 0 }

/-- Lookup in a `std::map` (`find`). -/
def find (m : List (Nat × Nat)) (k : Nat) : Option Nat := m.lookup k

/-- Insertion into a `std::map` (`emplace`): no effect when the key is present. -/
def emplace (m : List (Nat × Nat)) (k v : Nat) : List (Nat × Nat) :=
  match find m k with
  | some _ => m
  | none => (k, v) :: m

def capacity (s : Trampoline) : Nat := s._capacity

def allocated_size (s : Trampoline) : Nat := s._size

/-- The difference `_capacity - _size` in `std::size_t`. -/
def free_size (s : Trampoline) : Nat := (s._capacity + 2 ^ 64 - s._size) % 2 ^ 64

def release (s : Trampoline) : Trampoline :=
  { mem := s.mem
    deleted :=
      if s._data ≠ 0 then
        match s._deleter with
        | some d => s.deleted ++ [(d, s._data, s._capacity)]
        | none => s.deleted
      else s.deleted
    _5branches := []
    _6branches := []
    _deleter := s._deleter
    _data := 0
    _capacity := 0
    _size := 0 }

def set_trampoline (s : Trampoline) (a_trampoline a_size : Nat) (a_deleter : Option Nat) :
    Trampoline :=
  let m := if a_trampoline ≠ 0 then memset s.mem a_trampoline 0xCC a_size else s.mem
  let s1 := release { s with mem := m }
  { s1 with _deleter := a_deleter, _data := a_trampoline, _capacity := a_size, _size := 0 }

/-- The bump allocation.  On exhaustion the source halts in the debugger loop
and then returns `nullptr` (0) with the pool unchanged. -/
def do_allocate (env : Env) (s : Trampoline) (a_size : Nat) : Option (Nat × Trampoline) :=
  if a_size > free_size s then
    if env.debugger then some (0, s) else none
  else
    some ((s._data + s._size) % 2 ^ 64, { s with _size := (s._size + a_size) % 2 ^ 64 })

/-- The public `allocate`: `do_allocate` followed by `log_stats`, which changes nothing. -/
def allocate (env : Env) (s : Trampoline) (a_size : Nat) : Option (Nat × Trampoline) :=
  do_allocate env s a_size

def in_range (a_disp : Int) : Bool :=
  decide (-(2 ^ 31 : Int) ≤ a_disp) && decide (a_disp ≤ 2 ^ 31 - 1)

/-- The veneer for a destination in a 5-veneer or 6-veneer index: the entry
found, or a fresh allocation of `n` bytes recorded in the index.  The state
returned carries the allocation; the index is returned beside it. -/
def veneer (env : Env) (s : Trampoline) (index : List (Nat × Nat)) (a_dst n : Nat) :
    Option (Nat × List (Nat × Nat) × Trampoline) :=
  match find index a_dst with
  | some p => some (p, index, s)
  | none =>
    match allocate env s n with
    | none => none
    | some (p, s1) => some (p, emplace index a_dst p, s1)

/-- The 5-byte patch.  When the displacement is out of range the source halts
in the debugger loop and then returns, before any byte is written. -/
def write_5branch (env : Env) (s : Trampoline) (a_src a_dst a_opcode : Nat) :
    Option Trampoline :=
  match veneer env s s._5branches a_dst 14 with
  | none => none
  | some (mem, idx, s0) =>
    let s1 := { s0 with _5branches := idx }
    let disp := ptrdiff mem ((a_src + 5) % 2 ^ 64)
    if !in_range disp then
      if env.debugger then some s1 else none
    else
      let m :=
        if env.virtualProtect a_src 5 then
          writeBytes s1.mem a_src (a_opcode % 256 :: le32 (ofInt32 disp))
        else s1.mem
      some { s1 with mem := writeBytes m mem ([0xFF, 0x25] ++ le32 0 ++ le64 a_dst) }

/-- The 6-byte patch.  When the displacement is out of range the source halts
in the debugger loop; there is no `return` after the loop, so once the loop is
left the truncated displacement is written like any other. -/
def write_6branch (env : Env) (s : Trampoline) (a_src a_dst a_modrm : Nat) :
    Option Trampoline :=
  match veneer env s s._6branches a_dst 8 with
  | none => none
  | some (mem, idx, s0) =>
    let s1 := { s0 with _6branches := idx }
    let disp := ptrdiff mem ((a_src + 6) % 2 ^ 64)
    if !in_range disp && !env.debugger then none
    else
      let m :=
        if env.virtualProtect a_src 6 then
          writeBytes s1.mem a_src (0xFF :: a_modrm % 256 :: le32 (ofInt32 disp))
        else s1.mem
      some { s1 with mem := writeBytes m mem (le64 a_dst) }

/-- The template `write_branch<N>`; `N` is 5 or 6. -/
def write_branch (N : Nat) (env : Env) (s : Trampoline) (a_src a_dst a_data : Nat) :
    Option (Nat × Trampoline) :=
  let isNop := decide (toInt8 (read8 s.mem a_src) = 0x90)
  let disp := toInt32 (read32 s.mem ((a_src + N - 4) % 2 ^ 64))
  let nextOp := (a_src + N) % 2 ^ 64
  let func := if isNop then 0 else (nextOp + ofInt64 disp) % 2 ^ 64
  match (if N = 5 then write_5branch env s a_src a_dst a_data
         else write_6branch env s a_src a_dst a_data) with
  | none => none
  | some s1 => some (func, s1)

def write_branch_5 (env : Env) (s : Trampoline) (a_src a_dst : Nat) : Option (Nat × Trampoline) :=
  write_branch 5 env s a_src a_dst 0xE9

def write_branch_6 (env : Env) (s : Trampoline) (a_src a_dst : Nat) : Option (Nat × Trampoline) :=
  write_branch 6 env s a_src a_dst 0x25

def write_call_5 (env : Env) (s : Trampoline) (a_src a_dst : Nat) : Option (Nat × Trampoline) :=
  write_branch 5 env s a_src a_dst 0xE8

def write_call_6 (env : Env) (s : Trampoline) (a_src a_dst : Nat) : Option (Nat × Trampoline) :=
  write_branch 6 env s a_src a_dst 0x15

/-- The call `create(a_size, a_module)` for a non-null `a_module`; the deleter that calls
`VirtualFree` is named `freeId`. -/
def create (os : MemoryMap) (env : Env) (fuel : Nat) (s : Trampoline)
    (a_size a_module freeId : Nat) : Option Trampoline :=
  if a_size = 0 then
    if env.debugger then some s else none
  else
    match do_create os fuel a_size a_module with
    | none => none
    | some mem =>
      if mem = 0 ∧ env.debugger = false then none
      else some (set_trampoline s mem a_size (some freeId))

/-! ## Notions used to state the properties -/

/-- The pool is a block of the 64-bit address space and its bump pointer is
inside it. -/
def PoolOk (s : Trampoline) : Prop :=
  s._size ≤ s._capacity ∧ s._capacity < 2 ^ 64 ∧ s._data + s._capacity ≤ 2 ^ 64

instance (s : Trampoline) : Decidable (PoolOk s) := by
  unfold PoolOk
  infer_instance

/-- The veneer a patcher call uses for a destination, given the index of its
shape: the entry of the index, or else the next free byte of the pool. -/
def veneer_addr (s : Trampoline) (index : List (Nat × Nat)) (a_dst : Nat) : Nat :=
  match find index a_dst with
  | some p => p
  | none => (s._data + s._size) % 2 ^ 64

/-- A veneer of `n` bytes for the destination is available: the index holds one
that lies in the pool, or the pool has `n` free bytes. -/
def VeneerAvailable (s : Trampoline) (index : List (Nat × Nat)) (a_dst n : Nat) : Prop :=
  match find index a_dst with
  | some p => s._data ≤ p ∧ p + n ≤ s._data + s._capacity
  | none => s._size + n ≤ s._capacity

instance (s : Trampoline) (index : List (Nat × Nat)) (a_dst n : Nat) :
    Decidable (VeneerAvailable s index a_dst n) := by
  unfold VeneerAvailable
  split <;> infer_instance

/-- The `n` bytes at the site lie outside the pool. -/
def SiteOutsidePool (s : Trampoline) (site n : Nat) : Prop :=
  site + n ≤ s._data ∨ s._data + s._capacity ≤ site

instance (s : Trampoline) (site n : Nat) : Decidable (SiteOutsidePool s site n) := by
  unfold SiteOutsidePool
  infer_instance

/-- Target of the `rel32` / `[rip + disp32]` operand held by the last four of
the `n` bytes at a site: `site + n + signext(disp32)`, as an integer. -/
def site_target (m : Nat → Nat) (site n : Nat) : Int :=
  (site : Int) + n + toInt32 (read32 m (site + n - 4))

/-- The index of a veneer shape: `_5branches` for the 5-byte patchers,
`_6branches` for the 6-byte patchers. -/
def shape_index (N : Nat) (s : Trampoline) : List (Nat × Nat) :=
  if N = 5 then s._5branches else s._6branches

/-- The body of a 5-veneer for a destination. -/
def veneer5_body (a_dst : Nat) : List Nat := [0xFF, 0x25, 0x00, 0x00, 0x00, 0x00] ++ le64 a_dst

/-- One call of `allocate` or of a patcher that returns to its caller, under
some behaviour of the operating system. -/
inductive Step : Trampoline → Trampoline → Prop
  | allocate (env : Env) (s : Trampoline) (n p : Nat) (s1 : Trampoline)
      (h : allocate env s n = some (p, s1)) : Step s s1
  | write_branch_5 (env : Env) (s : Trampoline) (site dst r : Nat) (s1 : Trampoline)
      (h : write_branch_5 env s site dst = some (r, s1)) : Step s s1
  | write_branch_6 (env : Env) (s : Trampoline) (site dst r : Nat) (s1 : Trampoline)
      (h : write_branch_6 env s site dst = some (r, s1)) : Step s s1
  | write_call_5 (env : Env) (s : Trampoline) (site dst r : Nat) (s1 : Trampoline)
      (h : write_call_5 env s site dst = some (r, s1)) : Step s s1
  | write_call_6 (env : Env) (s : Trampoline) (site dst r : Nat) (s1 : Trampoline)
      (h : write_call_6 env s site dst = some (r, s1)) : Step s s1

/-- The states reached from an install, `set_trampoline` with a 64-bit base and
size on any state, by calls of `allocate` and of the patchers. -/
inductive Reachable : Trampoline → Prop
  | install (s0 : Trampoline) (base size : Nat) (deleter : Option Nat)
      (hbase : base < 2 ^ 64) (hsize : size < 2 ^ 64) :
      Reachable (set_trampoline s0 base size deleter)
  | step (s s1 : Trampoline) (hs : Reachable s) (h : Step s s1) : Reachable s1

/-- Every query reports the region that begins at the queried address, and the
region ends below `2 ^ 64`. -/
def QueryFromCursor (os : MemoryMap) : Prop :=
  ∀ c base len isFree, os.virtualQuery c = some (base, len, isFree) →
    base = c ∧ c + len < 2 ^ 64

/-- A reservation that succeeds returns the address requested. -/
def AllocAtRequest (os : MemoryMap) : Prop :=
  ∀ a n, os.virtualAlloc a n ≠ 0 → os.virtualAlloc a n = a

/-- Rounding up as the specification means it: the least multiple of `G` at or
above `n`, as a natural number (no 64-bit wrap). -/
def spec_roundup (n G : Nat) : Nat := G * ((n + G - 1) / G)

/-- Rounding down as the specification means it: the greatest multiple of `G`
at or below `n`. -/
def spec_rounddown (n G : Nat) : Nat := G * (n / G)

/-- Lower scan bound as the specification words it:
`roundup(max(anchor - 2 GiB, 0), G)`, the subtraction saturating at 0. -/
def spec_lo (G anchor : Nat) : Nat :=
  spec_roundup (Int.toNat (max ((anchor : Int) - 2 ^ 31) 0)) G

/-- Upper scan bound as the specification words it:
`rounddown(min(anchor + 2 GiB, U64_MAX), G)`, the addition saturating at
`U64_MAX`. -/
def spec_hi (G anchor : Nat) : Nat :=
  spec_rounddown (min (anchor + 2 ^ 31) (2 ^ 64 - 1)) G

/-- The cursors at which the loop of `do_create` queries the memory map, in
order: the loop of `do_create_loop` with the value of `min` at each
`VirtualQuery` recorded. -/
def scan_cursors (os : MemoryMap) (a_size max : Nat) : Nat → Nat → List Nat
  | 0, _ => []
  | fuel + 1, min =>
    min ::
      match os.virtualQuery min with
      | none => []
      | some (baseAddr, regionSize, isFree) =>
        let min1 := (baseAddr + regionSize) % 2 ^ 64
        let mem :=
          if isFree then
            let addr := detail.roundup baseAddr os.granularity
            if addr < min1 ∧ min1 - addr ≥ a_size then os.virtualAlloc addr a_size else 0
          else 0
        if mem ≠ 0 then []
        else if min1 < max then scan_cursors os a_size max fuel min1
        else []

/-- Every query reports a region that contains the queried address and ends
below `2 ^ 64`; such a region has positive length. -/
def RegionsProper (os : MemoryMap) : Prop :=
  ∀ c base len isFree, os.virtualQuery c = some (base, len, isFree) →
    base ≤ c ∧ c < base + len ∧ base + len < 2 ^ 64

/-- The pointer that one iteration of the loop of `do_create` obtains for the
region reported: the result of `VirtualAlloc` when the region is free and has
room after alignment, 0 when no reservation is attempted. -/
def region_alloc (os : MemoryMap) (a_size baseAddr regionSize : Nat) (isFree : Bool) : Nat :=
  if isFree then
    if detail.roundup baseAddr os.granularity < (baseAddr + regionSize) % 2 ^ 64 ∧
        (baseAddr + regionSize) % 2 ^ 64 - detail.roundup baseAddr os.granularity ≥ a_size then
      os.virtualAlloc (detail.roundup baseAddr os.granularity) a_size
    else 0
  else 0

/-- A patcher call that cannot take a fatal path: the index of its shape holds
the destination or the pool has `n` free bytes, and the veneer is in signed
32-bit reach of `site + N`.  The protection change may succeed or fail. -/
def PatchOk (s : Trampoline) (index : List (Nat × Nat)) (site dst N n : Nat) : Prop :=
  ((find index dst).isSome = true ∨ n ≤ free_size s) ∧
  in_range (ptrdiff (veneer_addr s index dst) (site + N)) = true

instance (s : Trampoline) (index : List (Nat × Nat)) (site dst N n : Nat) :
    Decidable (PatchOk s index site dst N n) := by
  unfold PatchOk
  infer_instance

/-- One successful patcher call whose site lies outside the pool. -/
inductive PatchStep : Trampoline → Trampoline → Prop
  | write_branch_5 (env : Env) (s : Trampoline) (site dst r : Nat) (s1 : Trampoline)
      (hsite : SiteOutsidePool s site 5) (hok : PatchOk s s._5branches site dst 5 14)
      (h : write_branch_5 env s site dst = some (r, s1)) : PatchStep s s1
  | write_call_5 (env : Env) (s : Trampoline) (site dst r : Nat) (s1 : Trampoline)
      (hsite : SiteOutsidePool s site 5) (hok : PatchOk s s._5branches site dst 5 14)
      (h : write_call_5 env s site dst = some (r, s1)) : PatchStep s s1
  | write_branch_6 (env : Env) (s : Trampoline) (site dst r : Nat) (s1 : Trampoline)
      (hsite : SiteOutsidePool s site 6) (hok : PatchOk s s._6branches site dst 6 8)
      (h : write_branch_6 env s site dst = some (r, s1)) : PatchStep s s1
  | write_call_6 (env : Env) (s : Trampoline) (site dst r : Nat) (s1 : Trampoline)
      (hsite : SiteOutsidePool s site 6) (hok : PatchOk s s._6branches site dst 6 8)
      (h : write_call_6 env s site dst = some (r, s1)) : PatchStep s s1

/-- The states reached from the install of a block of the 64-bit address space,
on any state, by successful patcher calls whose sites lie outside the pool. -/
inductive PatchReachable : Trampoline → Prop
  | install (s0 : Trampoline) (base size : Nat) (deleter : Option Nat)
      (hsize : size < 2 ^ 64) (hblock : base + size ≤ 2 ^ 64) :
      PatchReachable (set_trampoline s0 base size deleter)
  | step (s s1 : Trampoline) (hs : PatchReachable s) (h : PatchStep s s1) : PatchReachable s1

/-- The byte ranges (address, length) of all indexed veneers. -/
def veneer_ranges (s : Trampoline) : List (Nat × Nat) :=
  s._5branches.map (fun e => (e.2, 14)) ++ s._6branches.map (fun e => (e.2, 8))

/-- Two byte ranges (address, length) do not overlap. -/
def RangesDisjoint (a b : Nat × Nat) : Prop :=
  a.1 + a.2 ≤ b.1 ∨ b.1 + b.2 ≤ a.1

/-- The entries of an index lie in the used part of the pool and their bytes
are the body of the veneer for their destination. -/
def EntriesOk (m : Nat → Nat) (data used : Nat) (index : List (Nat × Nat)) (n : Nat)
    (body : Nat → List Nat) : Prop :=
  ∀ d p, (d, p) ∈ index → data ≤ p ∧ p + n ≤ data + used ∧ readBytes m p n = body d

/-- The invariant of the veneer indexes. -/
def VeneerInv (s : Trampoline) : Prop :=
  PoolOk s ∧
  EntriesOk s.mem s._data s._size s._5branches 14 veneer5_body ∧
  EntriesOk s.mem s._data s._size s._6branches 8 le64 ∧
  List.Pairwise RangesDisjoint (veneer_ranges s)

/-! ## Fixtures -/

namespace Fixture

/-- No debugger attached, every protection change succeeds. -/
def env : Env := { debugger := false, virtualProtect := fun _ _ => true }

/-- A debugger is attached, every protection change succeeds. -/
def envDebugger : Env := { debugger := true, virtualProtect := fun _ _ => true }

/-- No debugger attached, every protection change fails. -/
def envLocked : Env := { debugger := false, virtualProtect := fun _ _ => false }

/-- A pool of 0x100 bytes installed at 0x20000 in a memory filled with NOP bytes. -/
def nopState : Trampoline :=
  set_trampoline (Trampoline.init (fun _ => 0x90)) 0x20000 0x100 none

/-- A pool of 0x100 bytes installed at 0x20000; the five bytes at 0x1000 are
`E9 10 00 00 00`, every other byte outside the pool is 0. -/
def jmpState : Trampoline :=
  set_trampoline
    (Trampoline.init (fun a => if a = 0x1000 then 0xE9 else if a = 0x1001 then 0x10 else 0))
    0x20000 0x100 none

/-- A pool of 0x100 bytes installed at 0x7FF600000000, more than 2 GiB above
the site 0x1000, in a memory filled with NOP bytes. -/
def farState : Trampoline :=
  set_trampoline (Trampoline.init (fun _ => 0x90)) 0x7FF600000000 0x100 none

/-- Granularity 64 KiB; below `2 ^ 47` every address begins a free region of
1 MiB; every reservation succeeds at the address requested. -/
def freeMap : MemoryMap :=
  { granularity := 0x10000
    virtualQuery := fun c => if c < 2 ^ 47 then some (c, 0x100000, true) else none
    virtualAlloc := fun a _ => a }

/-- As `freeMap`, except that 0x80000000 begins a region in use that ends at
0x17FFF0000. -/
def busyMap : MemoryMap :=
  { granularity := 0x10000
    virtualQuery := fun c =>
      if c = 0x80000000 then some (c, 0xFFFF0000, false)
      else if c < 2 ^ 47 then some (c, 0x100000, true) else none
    virtualAlloc := fun a _ => a }

/-- Granularity 64 KiB; every query reports the one free region that begins at
0x10000 and ends at 0x200010000; every reservation succeeds at the address
requested. -/
def wideMap : MemoryMap :=
  { granularity := 0x10000
    virtualQuery := fun _ => some (0x10000, 0x200000000, true)
    virtualAlloc := fun a _ => a }

/-- A pool of 0x100 bytes installed at 0x20000 with the releaser named 7. -/
def ownedState : Trampoline :=
  set_trampoline (Trampoline.init (fun _ => 0x90)) 0x20000 0x100 (some 7)

/-- Granularity 100, which does not divide `2 ^ 64`: every address below
`2 ^ 64 - 10` begins a region in use that ends there, where a free region of 5
bytes begins; every reservation succeeds at the address requested. -/
def oddMap : MemoryMap :=
  { granularity := 100
    virtualQuery := fun c =>
      if c < 2 ^ 64 - 10 then some (c, 2 ^ 64 - 10 - c, false)
      else some (2 ^ 64 - 10, 5, true)
    virtualAlloc := fun a _ => a }

/-- Granularity 64 KiB; the address space is two regions in use, the lower and
the upper half, and a query reports the half that contains the address. -/
def halvesMap : MemoryMap :=
  { granularity := 0x10000
    virtualQuery := fun c =>
      if c < 2 ^ 63 then some (0, 2 ^ 63, false) else some (2 ^ 63, 2 ^ 63, false)
    virtualAlloc := fun a _ => a }

/-- The state left by `write_branch_5(0x1000, 0xAAAABBBBCCCCDDDD)` on `nopState`. -/
def patchedState : Trampoline :=
  match write_branch_5 env nopState 0x1000 0xAAAABBBBCCCCDDDD with
  | some (_, s) => s
  | none => nopState

/-- As `freeMap`, with the granularity 4294920955, a 32-bit value above 2 GiB. -/
def coarseMap : MemoryMap :=
  { granularity := 4294920955
    virtualQuery := freeMap.virtualQuery
    virtualAlloc := freeMap.virtualAlloc }

end Fixture

end API

namespace API

/-! ## Machine-integer lemmas -/

theorem toInt8_ne_0x90 (b : Nat) : toInt8 b ≠ 0x90 := by
  unfold toInt8
  split <;> omega

theorem toInt32_ofInt32 (d : Int) (h : in_range d = true) : toInt32 (ofInt32 d) = d := by
  unfold in_range at h
  simp only [Bool.and_eq_true, decide_eq_true_eq] at h
  unfold toInt32 ofInt32
  split <;> omega

theorem ofLE_le32 (n : Nat) : ofLE (le32 n) = n % 2 ^ 32 := by
  simp only [ofLE, le32]
  omega

theorem ofLE_le64 (n : Nat) : ofLE (le64 n) = n % 2 ^ 64 := by
  simp only [ofLE, le64]
  omega

theorem add_ofInt64_ptrdiff (a b : Nat) :
    (b % 2 ^ 64 + ofInt64 (ptrdiff a b)) % 2 ^ 64 = a % 2 ^ 64 := by
  unfold ofInt64 ptrdiff toInt64
  split <;> omega
/-! ## Memory lemmas -/

theorem writeBytes_apply (bs : List Nat) (m : Nat → Nat) (a x : Nat) :
    writeBytes m a bs x =
      if a ≤ x ∧ x < a + bs.length then bs.getD (x - a) 0 % 256 else m x := by
  induction bs generalizing m a with
  | nil =>
    simp only [writeBytes, List.length_nil, Nat.add_zero]
    rw [if_neg (by omega)]
  | cons b bs ih =>
    simp only [writeBytes, ih, write8, List.length_cons]
    by_cases h1 : x = a
    · subst h1
      simp
    · by_cases h2 : a ≤ x ∧ x < a + (bs.length + 1)
      · have h3 : a + 1 ≤ x ∧ x < a + 1 + bs.length := by omega
        have h4 : x - a = (x - (a + 1)) + 1 := by omega
        rw [if_pos h3, if_pos h2, h4, List.getD_cons_succ]
      · have h3 : ¬ (a + 1 ≤ x ∧ x < a + 1 + bs.length) := by omega
        rw [if_neg h3, if_neg h2, if_neg h1]

theorem writeBytes_outside (bs : List Nat) (m : Nat → Nat) (a x : Nat)
    (h : x < a ∨ a + bs.length ≤ x) : writeBytes m a bs x = m x := by
  rw [writeBytes_apply, if_neg (by omega)]

theorem readBytes_congr (m m' : Nat → Nat) (n a : Nat)
    (h : ∀ x, a ≤ x → x < a + n → m x = m' x) : readBytes m a n = readBytes m' a n := by
  induction n generalizing a with
  | zero => rfl
  | succ n ih =>
    simp only [readBytes, read8]
    rw [h a (by omega) (by omega), ih (a + 1) (fun x h1 h2 => h x (by omega) (by omega))]

theorem readBytes_writeBytes_disjoint (bs : List Nat) (m : Nat → Nat) (a b n : Nat)
    (h : b + n ≤ a ∨ a + bs.length ≤ b) :
    readBytes (writeBytes m a bs) b n = readBytes m b n :=
  readBytes_congr _ _ _ _ (fun x h1 h2 => writeBytes_outside bs m a x (by omega))

theorem readBytes_writeBytes_same (bs : List Nat) (m : Nat → Nat) (a : Nat) :
    readBytes (writeBytes m a bs) a bs.length = bs.map (· % 256) := by
  induction bs generalizing m a with
  | nil => rfl
  | cons b bs ih =>
    simp only [List.length_cons, readBytes, List.map_cons, writeBytes]
    rw [ih]
    simp [read8, writeBytes_outside, write8]

theorem le32_map_mod (n : Nat) : (le32 n).map (· % 256) = le32 n := by
  simp [le32]

theorem le64_map_mod (n : Nat) : (le64 n).map (· % 256) = le64 n := by
  simp [le64]

theorem writeBytes_idem (bs : List Nat) (m : Nat → Nat) (a : Nat) :
    writeBytes (writeBytes m a bs) a bs = writeBytes m a bs := by
  funext x
  rw [writeBytes_apply bs (writeBytes m a bs)]
  split
  · rw [writeBytes_apply, if_pos (by assumption)]
  · rfl


/-! ## Prior target returned by the patcher -/

/-- The value `write_branch<N>` returns, when it returns, is always
`nextOp + *disp`: the comparison of a `std::int8_t` with `0x90` is never true. -/
theorem write_branch_ret (N : Nat) (env : Env) (s s1 : Trampoline) (a_src a_dst a_data r : Nat)
    (h : write_branch N env s a_src a_dst a_data = some (r, s1)) :
    r = ((a_src + N) % 2 ^ 64 + ofInt64 (toInt32 (read32 s.mem ((a_src + N - 4) % 2 ^ 64))))
          % 2 ^ 64 := by
  unfold write_branch at h
  simp only [toInt8_ne_0x90, decide_False, Bool.false_eq_true, if_false] at h
  split at h
  · exact absurd h (by simp)
  · simp only [Option.some.injEq, Prod.mk.injEq] at h
    exact h.1.symm

theorem read32_eq (m : Nat → Nat) (p : Nat) :
    read32 m p = read8 m p + 2 ^ 8 * read8 m (p + 1) + 2 ^ 16 * read8 m (p + 2)
      + 2 ^ 24 * read8 m (p + 3) := by
  simp only [read32, readBytes, ofLE, Nat.add_assoc]
  norm_num
  omega

theorem read8_lt (m : Nat → Nat) (p : Nat) : read8 m p < 256 := Nat.mod_lt _ (by norm_num)

theorem wrap_add_ofInt64_toInt32 (a n : Nat) :
    (((a % 2 ^ 64 + ofInt64 (toInt32 n)) % 2 ^ 64 : Nat) : Int)
      = ((a : Int) + toInt32 n) % 2 ^ 64 := by
  unfold ofInt64 toInt32
  split <;> omega

/-- C1 (the code departs from it): over a memory filled with the NOP byte 0x90
each of the four patchers returns a prior target that is not 0, namely
`site + N + signext(0x90909090)` modulo `2 ^ 64`. -/
theorem nop_site_prior_target_nonzero :
    read8 Fixture.nopState.mem 0x1000 = 0x90 ∧
    (write_branch_5 Fixture.env Fixture.nopState 0x1000 0xAAAABBBBCCCCDDDD).map Prod.fst
      = some 0xFFFFFFFF9090A095 ∧
    (write_call_5 Fixture.env Fixture.nopState 0x1000 0xAAAABBBBCCCCDDDD).map Prod.fst
      = some 0xFFFFFFFF9090A095 ∧
    (write_branch_6 Fixture.env Fixture.nopState 0x1000 0xAAAABBBBCCCCDDDD).map Prod.fst
      = some 0xFFFFFFFF9090A096 ∧
    (write_call_6 Fixture.env Fixture.nopState 0x1000 0xAAAABBBBCCCCDDDD).map Prod.fst
      = some 0xFFFFFFFF9090A096 := by
  refine ⟨by decide, by decide, by decide, by decide, by decide⟩

/-- C2: when the first site byte is not 0x90 and one of the four patchers
returns, the value returned is `site + N + d` modulo `2 ^ 64`, where `d` is
the sign-extended little-endian 32-bit integer held by the four bytes
`b0 b1 b2 b3` at `site + N - 4` before the call (N = 5 for `write_branch_5` and
`write_call_5`, N = 6 for `write_branch_6` and `write_call_6`); and a site
holding `E9 10 00 00 00` makes `write_call_5` return `site + 0x15`. -/
theorem prior_target_recovery (N : Nat) (f : Env → Trampoline → Nat → Nat → Option (Nat × Trampoline))
    (env : Env) (s s1 : Trampoline) (site dst r b0 b1 b2 b3 : Nat)
    (hf : (N = 5 ∧ (f = write_branch_5 ∨ f = write_call_5)) ∨
          (N = 6 ∧ (f = write_branch_6 ∨ f = write_call_6)))
    (_hfirst : read8 s.mem site ≠ 0x90)
    (h0 : read8 s.mem ((site + N - 4) % 2 ^ 64) = b0)
    (h1 : read8 s.mem ((site + N - 4) % 2 ^ 64 + 1) = b1)
    (h2 : read8 s.mem ((site + N - 4) % 2 ^ 64 + 2) = b2)
    (h3 : read8 s.mem ((site + N - 4) % 2 ^ 64 + 3) = b3)
    (hret : f env s site dst = some (r, s1)) :
    (r : Int) = ((site : Int) + N + toInt32 (b0 + 2 ^ 8 * b1 + 2 ^ 16 * b2 + 2 ^ 24 * b3)) % 2 ^ 64 ∧
    (∀ r5 s5, site + 5 ≤ 2 ^ 64 → readBytes s.mem site 5 = [0xE9, 0x10, 0, 0, 0] →
      write_call_5 env s site dst = some (r5, s5) → r5 = (site + 0x15) % 2 ^ 64) := by
  have hr : ∃ a_data, write_branch N env s site dst a_data = some (r, s1) := by
    rcases hf with ⟨hN, hf | hf⟩ | ⟨hN, hf | hf⟩ <;> subst hN <;> subst hf
    · exact ⟨0xE9, hret⟩
    · exact ⟨0xE8, hret⟩
    · exact ⟨0x25, hret⟩
    · exact ⟨0x15, hret⟩
  obtain ⟨a_data, hr⟩ := hr
  have hv := write_branch_ret N env s s1 site dst a_data r hr
  refine ⟨?_, ?_⟩
  · rw [hv, wrap_add_ofInt64_toInt32, read32_eq, h0, h1, h2, h3]
    push_cast
    rfl
  · intro r5 s5 hsite hbytes h5
    have hv5 := write_branch_ret 5 env s s5 site dst 0xE8 r5 h5
    have hp : (site + 5 - 4) % 2 ^ 64 = site + 1 := by
      rw [Nat.mod_eq_of_lt (by omega)]
      omega
    simp only [readBytes, List.cons.injEq, and_true, Nat.add_assoc] at hbytes
    obtain ⟨-, e0, e1, e2, e3⟩ := hbytes
    norm_num at e1 e2 e3
    have h32 : read32 s.mem (site + 1) = 0x10 := by
      rw [read32_eq, e0]
      simp only [Nat.add_assoc]
      norm_num
      omega
    rw [hp, h32] at hv5
    have : ofInt64 (toInt32 0x10) = 0x10 := by decide
    rw [this] at hv5
    omega

/-- C2 at a concrete site: the five bytes at 0x1000 are `E9 10 00 00 00` and
`write_call_5` returns 0x1015. -/
theorem prior_target_recovery_witness :
    write_call_5 Fixture.env Fixture.jmpState 0x1000 0xAAAABBBBCCCCDDDD
      = some (0x1015, (write_call_5 Fixture.env Fixture.jmpState 0x1000 0xAAAABBBBCCCCDDDD).get
          (by decide) |>.2) ∧
    ((0x1015 : Nat) : Int) = ((0x1000 : Nat) + (5 : Nat) +
        toInt32 (0x10 + 2 ^ 8 * 0 + 2 ^ 16 * 0 + 2 ^ 24 * 0)) % 2 ^ 64 :=
  ⟨by rfl,
   (prior_target_recovery 5 write_call_5 Fixture.env Fixture.jmpState _ 0x1000
      0xAAAABBBBCCCCDDDD 0x1015 0x10 0 0 0 (Or.inl ⟨rfl, Or.inr rfl⟩) (by decide) (by decide)
      (by decide) (by decide) (by decide) (by rfl)).1⟩

end API

namespace API

/-! ## Veneer selection -/

theorem ptrdiff_mod_right (a b : Nat) : ptrdiff a (b % 2 ^ 64) = ptrdiff a b := by
  unfold ptrdiff
  rw [Nat.mod_mod]

theorem free_size_eq (s : Trampoline) (h : PoolOk s) : free_size s = s._capacity - s._size := by
  obtain ⟨h1, h2, -⟩ := h
  unfold free_size
  omega

theorem veneer_hit (env : Env) (s : Trampoline) (index : List (Nat × Nat)) (a_dst n p : Nat)
    (h : find index a_dst = some p) : veneer env s index a_dst n = some (p, index, s) := by
  unfold veneer
  rw [h]

theorem veneer_miss (env : Env) (s : Trampoline) (index : List (Nat × Nat)) (a_dst n : Nat)
    (hok : PoolOk s) (hn0 : 0 < n) (h : find index a_dst = none)
    (hn : s._size + n ≤ s._capacity) :
    veneer env s index a_dst n =
      some (s._data + s._size, (a_dst, s._data + s._size) :: index,
        { s with _size := s._size + n }) := by
  have hf := free_size_eq s hok
  obtain ⟨h1, h2, h3⟩ := hok
  unfold veneer allocate do_allocate emplace
  rw [h, hf, if_neg (by omega)]
  simp only
  rw [Nat.mod_eq_of_lt (by omega), Nat.mod_eq_of_lt (by omega)]

/-- Under `VeneerAvailable` the veneer step succeeds, uses `veneer_addr`, and
the veneer lies in the pool. -/
theorem veneer_available (env : Env) (s : Trampoline) (index : List (Nat × Nat)) (a_dst n : Nat)
    (hok : PoolOk s) (hn0 : 0 < n) (hav : VeneerAvailable s index a_dst n) :
    ∃ idx s0, veneer env s index a_dst n = some (veneer_addr s index a_dst, idx, s0) ∧
      find idx a_dst = some (veneer_addr s index a_dst) ∧
      s0.mem = s.mem ∧ s0._data = s._data ∧ s0._capacity = s._capacity ∧
      s0._5branches = s._5branches ∧ s0._6branches = s._6branches ∧
      s0._deleter = s._deleter ∧ s0.deleted = s.deleted ∧
      (s0._size = if (find index a_dst).isSome then s._size else s._size + n) ∧
      s._data ≤ veneer_addr s index a_dst ∧
      veneer_addr s index a_dst + n ≤ s._data + s._capacity := by
  unfold VeneerAvailable at hav
  unfold veneer_addr
  cases hfind : find index a_dst with
  | some p =>
    rw [hfind] at hav
    refine ⟨index, s, veneer_hit env s index a_dst n p hfind, hfind, rfl, rfl, rfl, rfl, rfl,
      rfl, rfl, by simp, hav.1, hav.2⟩
  | none =>
    rw [hfind] at hav
    have h3 := hok.2.2
    have h1 := hok.1
    simp only
    rw [Nat.mod_eq_of_lt (by omega)]
    refine ⟨_, _, veneer_miss env s index a_dst n hok hn0 hfind hav, ?_, rfl, rfl, rfl, rfl, rfl,
      rfl, rfl, by simp, by omega, by omega⟩
    simp [find, List.lookup]


/-! ## Effect of a patcher call that takes effect -/

/-- Memory after the site write (when the protection change succeeds) and the
veneer write. -/
theorem write_5branch_ok (env : Env) (s : Trampoline) (site dst op : Nat)
    (hok : PoolOk s) (hav : VeneerAvailable s s._5branches dst 14)
    (hreach : in_range (ptrdiff (veneer_addr s s._5branches dst) (site + 5)) = true) :
    ∃ s1, write_5branch env s site dst op = some s1 ∧
      s1.mem = writeBytes
        (if env.virtualProtect site 5 = true then
          writeBytes s.mem site
            (op % 256 :: le32 (ofInt32 (ptrdiff (veneer_addr s s._5branches dst) (site + 5))))
         else s.mem)
        (veneer_addr s s._5branches dst) (veneer5_body dst) ∧
      find s1._5branches dst = some (veneer_addr s s._5branches dst) ∧
      (s1._5branches = if (find s._5branches dst).isSome then s._5branches
        else (dst, veneer_addr s s._5branches dst) :: s._5branches) ∧
      (s1._size = if (find s._5branches dst).isSome then s._size else s._size + 14) ∧
      s1._6branches = s._6branches ∧ s1._data = s._data ∧ s1._capacity = s._capacity ∧
      s1._deleter = s._deleter ∧ s1.deleted = s.deleted := by
  unfold VeneerAvailable at hav
  unfold write_5branch
  cases hfind : find s._5branches dst with
  | some p =>
    have hv : veneer_addr s s._5branches dst = p := by simp [veneer_addr, hfind]
    rw [hv] at hreach ⊢
    rw [veneer_hit env s _ dst 14 p hfind]
    simp only [ptrdiff_mod_right, hreach, Bool.not_true, Bool.false_eq_true, if_false]
    exact ⟨_, rfl, by simp [veneer5_body, le32], hfind, by simp, by simp, rfl, rfl, rfl, rfl, rfl⟩
  | none =>
    rw [hfind] at hav
    have h3 := hok.2.2
    have h1 := hok.1
    have hv : veneer_addr s s._5branches dst = s._data + s._size := by
      simp only [veneer_addr, hfind]
      rw [Nat.mod_eq_of_lt (by omega)]
    rw [hv] at hreach ⊢
    rw [veneer_miss env s _ dst 14 hok (by norm_num) hfind hav]
    simp only [ptrdiff_mod_right, hreach, Bool.not_true, Bool.false_eq_true, if_false]
    exact ⟨_, rfl, by simp [veneer5_body, le32], by simp [find, List.lookup], by simp, by simp,
      rfl, rfl, rfl, rfl, rfl⟩


theorem write_6branch_ok (env : Env) (s : Trampoline) (site dst modrm : Nat)
    (hok : PoolOk s) (hav : VeneerAvailable s s._6branches dst 8)
    (hreach : in_range (ptrdiff (veneer_addr s s._6branches dst) (site + 6)) = true) :
    ∃ s1, write_6branch env s site dst modrm = some s1 ∧
      s1.mem = writeBytes
        (if env.virtualProtect site 6 = true then
          writeBytes s.mem site (0xFF :: modrm % 256 ::
            le32 (ofInt32 (ptrdiff (veneer_addr s s._6branches dst) (site + 6))))
         else s.mem)
        (veneer_addr s s._6branches dst) (le64 dst) ∧
      find s1._6branches dst = some (veneer_addr s s._6branches dst) ∧
      (s1._6branches = if (find s._6branches dst).isSome then s._6branches
        else (dst, veneer_addr s s._6branches dst) :: s._6branches) ∧
      (s1._size = if (find s._6branches dst).isSome then s._size else s._size + 8) ∧
      s1._5branches = s._5branches ∧ s1._data = s._data ∧ s1._capacity = s._capacity ∧
      s1._deleter = s._deleter ∧ s1.deleted = s.deleted := by
  unfold VeneerAvailable at hav
  unfold write_6branch
  cases hfind : find s._6branches dst with
  | some p =>
    have hv : veneer_addr s s._6branches dst = p := by simp [veneer_addr, hfind]
    rw [hv] at hreach ⊢
    rw [veneer_hit env s _ dst 8 p hfind]
    simp only [ptrdiff_mod_right, hreach, Bool.not_true, Bool.false_and, Bool.false_eq_true,
      if_false]
    exact ⟨_, rfl, rfl, hfind, by simp, by simp, rfl, rfl, rfl, rfl, rfl⟩
  | none =>
    rw [hfind] at hav
    have h3 := hok.2.2
    have h1 := hok.1
    have hv : veneer_addr s s._6branches dst = s._data + s._size := by
      simp only [veneer_addr, hfind]
      rw [Nat.mod_eq_of_lt (by omega)]
    rw [hv] at hreach ⊢
    rw [veneer_miss env s _ dst 8 hok (by norm_num) hfind hav]
    simp only [ptrdiff_mod_right, hreach, Bool.not_true, Bool.false_and, Bool.false_eq_true,
      if_false]
    exact ⟨_, rfl, rfl, by simp [find, List.lookup], by simp, by simp, rfl, rfl, rfl, rfl, rfl⟩

theorem write_branch_5_eq (env : Env) (s s1 : Trampoline) (site dst op : Nat)
    (h : write_5branch env s site dst op = some s1) :
    ∃ r, write_branch 5 env s site dst op = some (r, s1) := by
  unfold write_branch
  simp [h]

theorem write_branch_6_eq (env : Env) (s s1 : Trampoline) (site dst modrm : Nat)
    (h : write_6branch env s site dst modrm = some s1) :
    ∃ r, write_branch 6 env s site dst modrm = some (r, s1) := by
  unfold write_branch
  simp [h]

/-- The bytes of a store are read back where no later store touches them. -/
theorem readBytes_two_writes (m : Nat → Nat) (a v : Nat) (bs body : List Nat)
    (h : a + bs.length ≤ v ∨ v + body.length ≤ a) :
    readBytes (writeBytes (writeBytes m a bs) v body) a bs.length = bs.map (· % 256) := by
  rw [readBytes_writeBytes_disjoint body _ v a bs.length h, readBytes_writeBytes_same]

theorem read32_of_readBytes5 (m : Nat → Nat) (a b x : Nat)
    (h : readBytes m a 5 = b :: le32 x) : read32 m (a + 1) = x % 2 ^ 32 := by
  simp only [readBytes, List.cons.injEq] at h
  rw [read32, ← ofLE_le32, ← h.2]
  rfl

theorem read32_of_readBytes6 (m : Nat → Nat) (a b c x : Nat)
    (h : readBytes m a 6 = b :: c :: le32 x) : read32 m (a + 2) = x % 2 ^ 32 := by
  simp only [readBytes, List.cons.injEq] at h
  rw [read32, ← ofLE_le32, ← h.2.2]
  rfl

theorem ofInt32_lt (d : Int) : ofInt32 d < 2 ^ 32 := by
  unfold ofInt32
  omega

theorem in_range_iff (d : Int) : in_range d = true ↔ -(2 ^ 31 : Int) ≤ d ∧ d < 2 ^ 31 := by
  unfold in_range
  simp only [Bool.and_eq_true, decide_eq_true_eq]
  omega

/-- A displacement computed by pointer difference reaches the veneer in 64-bit
address arithmetic. -/
theorem ptrdiff_reaches (v site n : Nat) (hv : v < 2 ^ 64) :
    ((site : Int) + n + ptrdiff v (site + n)) % 2 ^ 64 = v := by
  unfold ptrdiff toInt64
  split <;> omega

end API

namespace API

theorem veneer_addr_in_pool (s : Trampoline) (index : List (Nat × Nat)) (a_dst n : Nat)
    (hok : PoolOk s) (hn0 : 0 < n) (hav : VeneerAvailable s index a_dst n) :
    s._data ≤ veneer_addr s index a_dst ∧ veneer_addr s index a_dst + n ≤ s._data + s._capacity := by
  obtain ⟨_, _, -, -, -, -, -, -, -, -, -, -, h1, h2⟩ :=
    veneer_available Fixture.env s index a_dst n hok hn0 hav
  exact ⟨h1, h2⟩

/-- C3: let the pool be a block of the address space with `used ≤ capacity`,
let a 5-veneer for `dst` be available (an index entry lying in the pool, or 14
free bytes), the protection change succeed, the 5 site bytes lie outside the
pool and the veneer be in signed 32-bit reach of `site + 5`.  Then
`write_branch_5` (opcode `E9`) and `write_call_5` (opcode `E8`) return, the 5
bytes at the site are the opcode followed by a little-endian `disp32` with
`site + 5 + signext(disp32) = veneer_addr` in 64-bit address arithmetic, the 14
bytes at `veneer_addr` are `FF 25 00 00 00 00` followed by `dst` in 8
little-endian bytes, and the index maps `dst` to `veneer_addr`. -/
theorem write_branch_5_encoding
    (f : Env → Trampoline → Nat → Nat → Option (Nat × Trampoline)) (op : Nat)
    (env : Env) (s : Trampoline) (site dst : Nat)
    (hf : (f = write_branch_5 ∧ op = 0xE9) ∨ (f = write_call_5 ∧ op = 0xE8))
    (hok : PoolOk s)
    (hav : VeneerAvailable s s._5branches dst 14)
    (hprot : env.virtualProtect site 5 = true)
    (hsite : SiteOutsidePool s site 5)
    (hreach : in_range (ptrdiff (veneer_addr s s._5branches dst) (site + 5)) = true) :
    ∃ r s1 d32, f env s site dst = some (r, s1) ∧
      readBytes s1.mem site 5 = op :: le32 d32 ∧ d32 < 2 ^ 32 ∧
      ((site : Int) + 5 + toInt32 d32) % 2 ^ 64 = veneer_addr s s._5branches dst ∧
      readBytes s1.mem (veneer_addr s s._5branches dst) 14
        = [0xFF, 0x25, 0x00, 0x00, 0x00, 0x00] ++ le64 dst ∧
      find s1._5branches dst = some (veneer_addr s s._5branches dst) := by
  obtain ⟨hv1, hv2⟩ := veneer_addr_in_pool s s._5branches dst 14 hok (by norm_num) hav
  obtain ⟨s1, hw, hmem, hidx, -⟩ := write_5branch_ok env s site dst op hok hav hreach
  obtain ⟨r, hr⟩ := write_branch_5_eq env s s1 site dst op hw
  have hop : op % 256 = op := by
    rcases hf with ⟨-, h⟩ | ⟨-, h⟩ <;> subst h <;> rfl
  have hfr : f env s site dst = some (r, s1) := by
    rcases hf with ⟨h1, h2⟩ | ⟨h1, h2⟩ <;> subst h1 <;> subst h2 <;> exact hr
  rw [if_pos hprot, hop] at hmem
  unfold SiteOutsidePool at hsite
  have hlt := hok.2.2
  refine ⟨r, s1, ofInt32 (ptrdiff (veneer_addr s s._5branches dst) (site + 5)), hfr, ?_,
    ofInt32_lt _, ?_, ?_, hidx⟩
  · rw [hmem]
    have := readBytes_two_writes s.mem site (veneer_addr s s._5branches dst)
      (op :: le32 (ofInt32 (ptrdiff (veneer_addr s s._5branches dst) (site + 5))))
      (veneer5_body dst) (by simp only [List.length_cons, le32, veneer5_body, le64,
        List.length_append, List.length_nil]; omega)
    rw [List.map_cons, hop, le32_map_mod] at this
    exact this
  · rw [toInt32_ofInt32 _ hreach]
    exact_mod_cast ptrdiff_reaches (veneer_addr s s._5branches dst) site 5 (by omega)
  · rw [hmem]
    have := readBytes_writeBytes_same (veneer5_body dst)
      (writeBytes s.mem site
        (op :: le32 (ofInt32 (ptrdiff (veneer_addr s s._5branches dst) (site + 5)))))
      (veneer_addr s s._5branches dst)
    have hb : (veneer5_body dst).map (· % 256) = veneer5_body dst := by
      simp [veneer5_body, le64]
    rw [hb] at this
    exact this

/-- C3 on a fresh pool at 0x20000 and the site 0x1000: the site holds
`E9 FB EF 01 00` and the veneer at 0x20000 holds `FF 25 00 00 00 00` and the
destination. -/
theorem write_branch_5_encoding_witness :
    write_branch_5 Fixture.env Fixture.nopState 0x1000 0xAAAABBBBCCCCDDDD
      = some (0xFFFFFFFF9090A095,
          (write_branch_5 Fixture.env Fixture.nopState 0x1000 0xAAAABBBBCCCCDDDD).get
            (by decide) |>.2) ∧
    ∃ r s1 d32, write_branch_5 Fixture.env Fixture.nopState 0x1000 0xAAAABBBBCCCCDDDD
        = some (r, s1) ∧
      readBytes s1.mem 0x1000 5 = 0xE9 :: le32 d32 ∧ d32 < 2 ^ 32 ∧
      (((0x1000 : Nat) : Int) + 5 + toInt32 d32) % 2 ^ 64
        = veneer_addr Fixture.nopState Fixture.nopState._5branches 0xAAAABBBBCCCCDDDD ∧
      readBytes s1.mem
          (veneer_addr Fixture.nopState Fixture.nopState._5branches 0xAAAABBBBCCCCDDDD) 14
        = [0xFF, 0x25, 0x00, 0x00, 0x00, 0x00] ++ le64 0xAAAABBBBCCCCDDDD ∧
      find s1._5branches 0xAAAABBBBCCCCDDDD
        = some (veneer_addr Fixture.nopState Fixture.nopState._5branches 0xAAAABBBBCCCCDDDD) :=
  ⟨by rfl,
   write_branch_5_encoding write_branch_5 0xE9 Fixture.env Fixture.nopState 0x1000
    0xAAAABBBBCCCCDDDD (Or.inl ⟨rfl, rfl⟩) (by decide) (by decide) (by decide) (by decide)
    (by decide)⟩


/-- C4: let the pool be a block of the address space with `used ≤ capacity` and
at least 8 free bytes, `dst` be absent from the 6-veneer index, the protection
change succeed, the 6 site bytes lie outside the pool and the next free pool
byte be in signed 32-bit reach of `site + 6`.  Then `write_branch_6` (ModR/M
`25`) and `write_call_6` (ModR/M `15`) return, the 6 bytes at the site are
`FF`, the ModR/M byte and a little-endian `disp32`, `site + 6 + signext(disp32)`
is in 64-bit address arithmetic the address of a slot inside the pool whose 8
bytes are `dst` little-endian, the index maps `dst` to that slot, and
`allocated_size` has grown by exactly 8. -/
theorem write_branch_6_encoding
    (f : Env → Trampoline → Nat → Nat → Option (Nat × Trampoline)) (modrm : Nat)
    (env : Env) (s : Trampoline) (site dst : Nat)
    (hf : (f = write_branch_6 ∧ modrm = 0x25) ∨ (f = write_call_6 ∧ modrm = 0x15))
    (hok : PoolOk s)
    (hnew : find s._6branches dst = none)
    (hfree : 8 ≤ free_size s)
    (hprot : env.virtualProtect site 6 = true)
    (hsite : SiteOutsidePool s site 6)
    (hreach : in_range (ptrdiff (s._data + s._size) (site + 6)) = true) :
    ∃ (r : Nat) (s1 : Trampoline) (d32 slot : Nat), f env s site dst = some (r, s1) ∧
      readBytes s1.mem site 6 = 0xFF :: modrm :: le32 d32 ∧ d32 < 2 ^ 32 ∧
      ((site : Int) + 6 + toInt32 d32) % 2 ^ 64 = (slot : Int) ∧
      s._data ≤ slot ∧ slot + 8 ≤ s._data + s._capacity ∧
      readBytes s1.mem slot 8 = le64 dst ∧
      find s1._6branches dst = some slot ∧
      allocated_size s1 = allocated_size s + 8 := by
  have hfs := free_size_eq s hok
  have hle := hok.1
  have hlt := hok.2.2
  have hav : VeneerAvailable s s._6branches dst 8 := by
    unfold VeneerAvailable
    rw [hnew]
    simp only
    omega
  have hva : veneer_addr s s._6branches dst = s._data + s._size := by
    simp only [veneer_addr, hnew]
    rw [Nat.mod_eq_of_lt (by omega)]
  obtain ⟨hv1, hv2⟩ := veneer_addr_in_pool s s._6branches dst 8 hok (by norm_num) hav
  rw [← hva] at hreach
  obtain ⟨s1, hw, hmem, hidx, -, hsz, -⟩ := write_6branch_ok env s site dst modrm hok hav hreach
  obtain ⟨r, hr⟩ := write_branch_6_eq env s s1 site dst modrm hw
  have hop : modrm % 256 = modrm := by
    rcases hf with ⟨-, h⟩ | ⟨-, h⟩ <;> subst h <;> rfl
  have hfr : f env s site dst = some (r, s1) := by
    rcases hf with ⟨h1, h2⟩ | ⟨h1, h2⟩ <;> subst h1 <;> subst h2 <;> exact hr
  rw [if_pos hprot, hop] at hmem
  rw [hnew] at hsz
  unfold SiteOutsidePool at hsite
  refine ⟨r, s1, ofInt32 (ptrdiff (veneer_addr s s._6branches dst) (site + 6)),
    veneer_addr s s._6branches dst, hfr, ?_, ofInt32_lt _, ?_, hv1, hv2, ?_, hidx, ?_⟩
  · rw [hmem]
    have := readBytes_two_writes s.mem site (veneer_addr s s._6branches dst)
      (0xFF :: modrm :: le32 (ofInt32 (ptrdiff (veneer_addr s s._6branches dst) (site + 6))))
      (le64 dst) (by simp only [List.length_cons, le32, le64, List.length_nil]; omega)
    rw [List.map_cons, List.map_cons, hop, le32_map_mod] at this
    exact this
  · rw [toInt32_ofInt32 _ hreach]
    exact_mod_cast ptrdiff_reaches (veneer_addr s s._6branches dst) site 6 (by omega)
  · rw [hmem]
    have := readBytes_writeBytes_same (le64 dst)
      (writeBytes s.mem site
        (0xFF :: modrm :: le32 (ofInt32 (ptrdiff (veneer_addr s s._6branches dst) (site + 6)))))
      (veneer_addr s s._6branches dst)
    rw [le64_map_mod] at this
    exact this
  · simpa [allocated_size] using hsz

/-- C4 on a fresh pool at 0x20000 and the site 0x1000: `write_call_6` leaves
`FF 15 FA EF 01 00` at the site, the slot at 0x20000 holds the destination and
8 bytes are allocated. -/
theorem write_branch_6_encoding_witness :
    ((write_call_6 Fixture.env Fixture.nopState 0x1000 0xAAAABBBBCCCCDDDD).map
      (fun o => (readBytes o.2.mem 0x1000 6, readBytes o.2.mem 0x20000 8, o.2._size)))
      = some ([0xFF, 0x15, 0xFA, 0xEF, 0x01, 0x00],
          [0xDD, 0xDD, 0xCC, 0xCC, 0xBB, 0xBB, 0xAA, 0xAA], 8) ∧
    ∃ (r : Nat) (s1 : Trampoline) (d32 slot : Nat), write_call_6 Fixture.env Fixture.nopState 0x1000 0xAAAABBBBCCCCDDDD
        = some (r, s1) ∧
      readBytes s1.mem 0x1000 6 = 0xFF :: 0x15 :: le32 d32 ∧ d32 < 2 ^ 32 ∧
      (((0x1000 : Nat) : Int) + 6 + toInt32 d32) % 2 ^ 64 = (slot : Int) ∧
      Fixture.nopState._data ≤ slot ∧
      slot + 8 ≤ Fixture.nopState._data + Fixture.nopState._capacity ∧
      readBytes s1.mem slot 8 = le64 0xAAAABBBBCCCCDDDD ∧
      find s1._6branches 0xAAAABBBBCCCCDDDD = some slot ∧
      allocated_size s1 = allocated_size Fixture.nopState + 8 :=
  ⟨by decide,
   write_branch_6_encoding write_call_6 0x15 Fixture.env Fixture.nopState 0x1000
    0xAAAABBBBCCCCDDDD (Or.inr ⟨rfl, rfl⟩) (by decide) (by decide) (by decide) (by decide)
    (by decide) (by decide)⟩

end API

namespace API

/-! ## Combined effect of one patcher call -/

theorem site_target_congr (m m1 : Nat → Nat) (site n : Nat) (hn : 4 ≤ n)
    (h : readBytes m1 site n = readBytes m site n) :
    site_target m1 site n = site_target m site n := by
  have key : ∀ k, k + 4 ≤ n → readBytes m1 (site + k) 4 = readBytes m (site + k) 4 := by
    intro k hk
    have e1 : ∀ (mm : Nat → Nat) (a j l : Nat),
        (readBytes mm a (j + l)).drop j = readBytes mm (a + j) l := by
      intro mm a j
      induction j generalizing a with
      | zero => intro l; simp
      | succ j ih =>
        intro l
        have : j + 1 + l = (j + l) + 1 := by omega
        rw [this, readBytes, List.drop_succ_cons, ih]
        congr 1
        omega
    have e2 : ∀ (mm : Nat → Nat) (a j l : Nat),
        (readBytes mm a (j + l)).take j = readBytes mm a j := by
      intro mm a j
      induction j generalizing a with
      | zero => intro l; simp [readBytes]
      | succ j ih =>
        intro l
        have : j + 1 + l = (j + l) + 1 := by omega
        rw [this, readBytes, List.take_succ_cons, ih, readBytes]
    have hsplit : n = k + (4 + (n - k - 4)) := by omega
    have h1 := congrArg (List.drop k) h
    rw [hsplit, e1, e1] at h1
    have h2 := congrArg (List.take 4) h1
    rw [e2, e2] at h2
    exact h2
  unfold site_target read32
  have := key (n - 4) (by omega)
  have hs : site + (n - 4) = site + n - 4 := by omega
  rw [hs] at this
  rw [this]


/-- Everything a 5-byte patcher call does when it takes effect. -/
theorem patch5_effect (env : Env) (s : Trampoline) (site dst op : Nat) (hop : op % 256 = op)
    (hok : PoolOk s) (hav : VeneerAvailable s s._5branches dst 14)
    (hprot : env.virtualProtect site 5 = true) (hsite : SiteOutsidePool s site 5)
    (hreach : in_range (ptrdiff (veneer_addr s s._5branches dst) (site + 5)) = true) :
    ∃ r s1, write_branch 5 env s site dst op = some (r, s1) ∧
      s1.mem = writeBytes
        (writeBytes s.mem site
          (op :: le32 (ofInt32 (ptrdiff (veneer_addr s s._5branches dst) (site + 5)))))
        (veneer_addr s s._5branches dst) (veneer5_body dst) ∧
      readBytes s1.mem site 5
        = op :: le32 (ofInt32 (ptrdiff (veneer_addr s s._5branches dst) (site + 5))) ∧
      site_target s1.mem site 5 % 2 ^ 64 = veneer_addr s s._5branches dst ∧
      find s1._5branches dst = some (veneer_addr s s._5branches dst) ∧
      (s1._5branches = if (find s._5branches dst).isSome then s._5branches
        else (dst, veneer_addr s s._5branches dst) :: s._5branches) ∧
      (s1._size = if (find s._5branches dst).isSome then s._size else s._size + 14) ∧
      s1._6branches = s._6branches ∧ s1._data = s._data ∧ s1._capacity = s._capacity ∧
      s1._deleter = s._deleter ∧ s1.deleted = s.deleted := by
  obtain ⟨hv1, hv2⟩ := veneer_addr_in_pool s s._5branches dst 14 hok (by norm_num) hav
  obtain ⟨s1, hw, hmem, hrest⟩ := write_5branch_ok env s site dst op hok hav hreach
  obtain ⟨r, hr⟩ := write_branch_5_eq env s s1 site dst op hw
  rw [if_pos hprot, hop] at hmem
  unfold SiteOutsidePool at hsite
  have hlt := hok.2.2
  have hbytes : readBytes s1.mem site 5
      = op :: le32 (ofInt32 (ptrdiff (veneer_addr s s._5branches dst) (site + 5))) := by
    rw [hmem]
    have := readBytes_two_writes s.mem site (veneer_addr s s._5branches dst)
      (op :: le32 (ofInt32 (ptrdiff (veneer_addr s s._5branches dst) (site + 5))))
      (veneer5_body dst) (by simp only [List.length_cons, le32, veneer5_body, le64,
        List.length_append, List.length_nil]; omega)
    rw [List.map_cons, hop, le32_map_mod] at this
    exact this
  refine ⟨r, s1, hr, hmem, hbytes, ?_, hrest⟩
  have h32 := read32_of_readBytes5 _ _ _ _ hbytes
  have hs : site + 5 - 4 = site + 1 := by omega
  unfold site_target
  rw [hs, h32, Nat.mod_eq_of_lt (ofInt32_lt _), toInt32_ofInt32 _ hreach]
  exact_mod_cast ptrdiff_reaches (veneer_addr s s._5branches dst) site 5 (by omega)

/-- Everything a 6-byte patcher call does when it takes effect. -/
theorem patch6_effect (env : Env) (s : Trampoline) (site dst modrm : Nat)
    (hop : modrm % 256 = modrm)
    (hok : PoolOk s) (hav : VeneerAvailable s s._6branches dst 8)
    (hprot : env.virtualProtect site 6 = true) (hsite : SiteOutsidePool s site 6)
    (hreach : in_range (ptrdiff (veneer_addr s s._6branches dst) (site + 6)) = true) :
    ∃ r s1, write_branch 6 env s site dst modrm = some (r, s1) ∧
      s1.mem = writeBytes
        (writeBytes s.mem site
          (0xFF :: modrm :: le32 (ofInt32 (ptrdiff (veneer_addr s s._6branches dst) (site + 6)))))
        (veneer_addr s s._6branches dst) (le64 dst) ∧
      readBytes s1.mem site 6
        = 0xFF :: modrm :: le32 (ofInt32 (ptrdiff (veneer_addr s s._6branches dst) (site + 6))) ∧
      site_target s1.mem site 6 % 2 ^ 64 = veneer_addr s s._6branches dst ∧
      find s1._6branches dst = some (veneer_addr s s._6branches dst) ∧
      (s1._6branches = if (find s._6branches dst).isSome then s._6branches
        else (dst, veneer_addr s s._6branches dst) :: s._6branches) ∧
      (s1._size = if (find s._6branches dst).isSome then s._size else s._size + 8) ∧
      s1._5branches = s._5branches ∧ s1._data = s._data ∧ s1._capacity = s._capacity ∧
      s1._deleter = s._deleter ∧ s1.deleted = s.deleted := by
  obtain ⟨hv1, hv2⟩ := veneer_addr_in_pool s s._6branches dst 8 hok (by norm_num) hav
  obtain ⟨s1, hw, hmem, hrest⟩ := write_6branch_ok env s site dst modrm hok hav hreach
  obtain ⟨r, hr⟩ := write_branch_6_eq env s s1 site dst modrm hw
  rw [if_pos hprot, hop] at hmem
  unfold SiteOutsidePool at hsite
  have hlt := hok.2.2
  have hbytes : readBytes s1.mem site 6
      = 0xFF :: modrm ::
          le32 (ofInt32 (ptrdiff (veneer_addr s s._6branches dst) (site + 6))) := by
    rw [hmem]
    have := readBytes_two_writes s.mem site (veneer_addr s s._6branches dst)
      (0xFF :: modrm :: le32 (ofInt32 (ptrdiff (veneer_addr s s._6branches dst) (site + 6))))
      (le64 dst) (by simp only [List.length_cons, le32, le64, List.length_nil]; omega)
    rw [List.map_cons, List.map_cons, hop, le32_map_mod] at this
    exact this
  refine ⟨r, s1, hr, hmem, hbytes, ?_, hrest⟩
  have h32 := read32_of_readBytes6 _ _ _ _ _ hbytes
  have hs : site + 6 - 4 = site + 2 := by omega
  unfold site_target
  rw [hs, h32, Nat.mod_eq_of_lt (ofInt32_lt _), toInt32_ofInt32 _ hreach]
  exact_mod_cast ptrdiff_reaches (veneer_addr s s._6branches dst) site 6 (by omega)


/-! ## Veneer reuse -/

theorem site_target_two_writes (m : Nat → Nat) (site n b v : Nat) (bs body : List Nat)
    (hn : 4 ≤ n) (h1 : site + n ≤ b ∨ b + bs.length ≤ site)
    (h2 : site + n ≤ v ∨ v + body.length ≤ site) :
    site_target (writeBytes (writeBytes m b bs) v body) site n = site_target m site n := by
  apply site_target_congr _ _ _ _ hn
  rw [readBytes_writeBytes_disjoint body _ v site n h2,
    readBytes_writeBytes_disjoint bs _ b site n h1]

theorem reuse5 (env1 env2 : Env) (s : Trampoline) (site_a site_b D op1 op2 : Nat)
    (hop1 : op1 % 256 = op1) (hop2 : op2 % 256 = op2)
    (hok : PoolOk s) (hnew : find s._5branches D = none) (hfree : 14 ≤ free_size s)
    (hprot_a : env1.virtualProtect site_a 5 = true)
    (hprot_b : env2.virtualProtect site_b 5 = true)
    (hsite_a : SiteOutsidePool s site_a 5) (hsite_b : SiteOutsidePool s site_b 5)
    (hreach_a : in_range (ptrdiff (s._data + s._size) (site_a + 5)) = true)
    (hreach_b : in_range (ptrdiff (s._data + s._size) (site_b + 5)) = true) :
    ∃ (r1 : Nat) (s1 : Trampoline) (r2 : Nat) (s2 : Trampoline),
      write_branch 5 env1 s site_a D op1 = some (r1, s1) ∧
      write_branch 5 env2 s1 site_b D op2 = some (r2, s2) ∧
      site_target s1.mem site_a 5 % 2 ^ 64 = ((s._data + s._size : Nat) : Int) ∧
      site_target s2.mem site_b 5 % 2 ^ 64 = ((s._data + s._size : Nat) : Int) ∧
      (site_a + 5 ≤ site_b ∨ site_b + 5 ≤ site_a →
        site_target s2.mem site_a 5 % 2 ^ 64 = ((s._data + s._size : Nat) : Int)) ∧
      find s2._5branches D = some (s._data + s._size) ∧
      s1._size = s._size + 14 ∧ s2._size = s1._size := by
  have hfs := free_size_eq s hok
  have hle := hok.1
  have hlt := hok.2.2
  have hav : VeneerAvailable s s._5branches D 14 := by
    unfold VeneerAvailable
    rw [hnew]
    simp only
    omega
  have hva : veneer_addr s s._5branches D = s._data + s._size := by
    simp only [veneer_addr, hnew]
    rw [Nat.mod_eq_of_lt (by omega)]
  rw [← hva] at hreach_a hreach_b ⊢
  obtain ⟨r1, s1, hr1, -, -, ht1, hidx1, -, hsz1, -, hd1, hc1, -⟩ :=
    patch5_effect env1 s site_a D op1 hop1 hok hav hprot_a hsite_a hreach_a
  rw [hnew] at hsz1
  simp only [Option.isSome_none, Bool.false_eq_true, if_false] at hsz1
  have hok1 : PoolOk s1 := by
    unfold PoolOk at hok ⊢
    rw [hsz1, hd1, hc1]
    omega
  have hva1 : veneer_addr s1 s1._5branches D = veneer_addr s s._5branches D := by
    simp only [veneer_addr, hidx1]
  have hav1 : VeneerAvailable s1 s1._5branches D 14 := by
    unfold VeneerAvailable
    rw [hidx1, hd1, hc1]
    simp only
    rw [hva]
    omega
  have hsb1 : SiteOutsidePool s1 site_b 5 := by
    unfold SiteOutsidePool at hsite_b ⊢
    rw [hd1, hc1]
    exact hsite_b
  rw [← hva1] at hreach_b
  obtain ⟨r2, s2, hr2, hmem2, -, ht2, hidx2, -, hsz2, -⟩ :=
    patch5_effect env2 s1 site_b D op2 hop2 hok1 hav1 hprot_b hsb1 hreach_b
  rw [hidx1] at hsz2
  simp only [Option.isSome_some, if_true] at hsz2
  rw [hva1] at ht2 hidx2
  refine ⟨r1, s1, r2, s2, hr1, hr2, ht1, ht2, ?_, hidx2, hsz1, hsz2⟩
  intro hdis
  rw [hmem2, site_target_two_writes s1.mem site_a 5 site_b _ _ _ (by norm_num)
    (by simp only [List.length_cons, le32, List.length_nil]; omega)
    (by
      unfold SiteOutsidePool at hsite_a
      simp only [veneer5_body, le64, List.length_append, List.length_cons, List.length_nil]
      rw [hva1, hva]
      omega)]
  exact ht1

theorem reuse6 (env1 env2 : Env) (s : Trampoline) (site_a site_b D op1 op2 : Nat)
    (hop1 : op1 % 256 = op1) (hop2 : op2 % 256 = op2)
    (hok : PoolOk s) (hnew : find s._6branches D = none) (hfree : 8 ≤ free_size s)
    (hprot_a : env1.virtualProtect site_a 6 = true)
    (hprot_b : env2.virtualProtect site_b 6 = true)
    (hsite_a : SiteOutsidePool s site_a 6) (hsite_b : SiteOutsidePool s site_b 6)
    (hreach_a : in_range (ptrdiff (s._data + s._size) (site_a + 6)) = true)
    (hreach_b : in_range (ptrdiff (s._data + s._size) (site_b + 6)) = true) :
    ∃ (r1 : Nat) (s1 : Trampoline) (r2 : Nat) (s2 : Trampoline),
      write_branch 6 env1 s site_a D op1 = some (r1, s1) ∧
      write_branch 6 env2 s1 site_b D op2 = some (r2, s2) ∧
      site_target s1.mem site_a 6 % 2 ^ 64 = ((s._data + s._size : Nat) : Int) ∧
      site_target s2.mem site_b 6 % 2 ^ 64 = ((s._data + s._size : Nat) : Int) ∧
      (site_a + 6 ≤ site_b ∨ site_b + 6 ≤ site_a →
        site_target s2.mem site_a 6 % 2 ^ 64 = ((s._data + s._size : Nat) : Int)) ∧
      find s2._6branches D = some (s._data + s._size) ∧
      s1._size = s._size + 8 ∧ s2._size = s1._size := by
  have hfs := free_size_eq s hok
  have hle := hok.1
  have hlt := hok.2.2
  have hav : VeneerAvailable s s._6branches D 8 := by
    unfold VeneerAvailable
    rw [hnew]
    simp only
    omega
  have hva : veneer_addr s s._6branches D = s._data + s._size := by
    simp only [veneer_addr, hnew]
    rw [Nat.mod_eq_of_lt (by omega)]
  rw [← hva] at hreach_a hreach_b ⊢
  obtain ⟨r1, s1, hr1, -, -, ht1, hidx1, -, hsz1, -, hd1, hc1, -⟩ :=
    patch6_effect env1 s site_a D op1 hop1 hok hav hprot_a hsite_a hreach_a
  rw [hnew] at hsz1
  simp only [Option.isSome_none, Bool.false_eq_true, if_false] at hsz1
  have hok1 : PoolOk s1 := by
    unfold PoolOk at hok ⊢
    rw [hsz1, hd1, hc1]
    omega
  have hva1 : veneer_addr s1 s1._6branches D = veneer_addr s s._6branches D := by
    simp only [veneer_addr, hidx1]
  have hav1 : VeneerAvailable s1 s1._6branches D 8 := by
    unfold VeneerAvailable
    rw [hidx1, hd1, hc1]
    simp only
    rw [hva]
    omega
  have hsb1 : SiteOutsidePool s1 site_b 6 := by
    unfold SiteOutsidePool at hsite_b ⊢
    rw [hd1, hc1]
    exact hsite_b
  rw [← hva1] at hreach_b
  obtain ⟨r2, s2, hr2, hmem2, -, ht2, hidx2, -, hsz2, -⟩ :=
    patch6_effect env2 s1 site_b D op2 hop2 hok1 hav1 hprot_b hsb1 hreach_b
  rw [hidx1] at hsz2
  simp only [Option.isSome_some, if_true] at hsz2
  rw [hva1] at ht2 hidx2
  refine ⟨r1, s1, r2, s2, hr1, hr2, ht1, ht2, ?_, hidx2, hsz1, hsz2⟩
  intro hdis
  rw [hmem2, site_target_two_writes s1.mem site_a 6 site_b _ _ _ (by norm_num)
    (by simp only [List.length_cons, le32, List.length_nil]; omega)
    (by
      unfold SiteOutsidePool at hsite_a
      simp only [le64, List.length_cons, List.length_nil]
      rw [hva1, hva]
      omega)]
  exact ht1


/-- C5: let `D` be absent from the index of a veneer shape (N = 5 with a
14-byte veneer: `write_branch_5`, `write_call_5`; N = 6 with an 8-byte veneer:
`write_branch_6`, `write_call_6`), the pool have room for one veneer, and two
calls of that shape with destination `D` at sites `site_a ≠ site_b` both take
effect (protection change succeeds, site outside the pool, veneer in reach).
Then both calls return, each encodes at its site the same veneer address `v`
(the first call at `site_a`, the second at `site_b`; `site_a` still decodes to
`v` after the second call when the two sites do not overlap), the index maps
`D` to `v`, `allocated_size` grows by exactly the veneer size across both calls
and the second call allocates nothing. -/
theorem veneer_reuse (N vsize : Nat)
    (f g : Env → Trampoline → Nat → Nat → Option (Nat × Trampoline))
    (env1 env2 : Env) (s : Trampoline) (site_a site_b D : Nat)
    (hshape :
      (N = 5 ∧ vsize = 14 ∧ (f = write_branch_5 ∨ f = write_call_5) ∧
        (g = write_branch_5 ∨ g = write_call_5)) ∨
      (N = 6 ∧ vsize = 8 ∧ (f = write_branch_6 ∨ f = write_call_6) ∧
        (g = write_branch_6 ∨ g = write_call_6)))
    (hok : PoolOk s)
    (hnew : find (shape_index N s) D = none)
    (hfree : vsize ≤ free_size s)
    (_hne : site_a ≠ site_b)
    (hprot_a : env1.virtualProtect site_a N = true)
    (hprot_b : env2.virtualProtect site_b N = true)
    (hsite_a : SiteOutsidePool s site_a N) (hsite_b : SiteOutsidePool s site_b N)
    (hreach_a : in_range (ptrdiff (s._data + s._size) (site_a + N)) = true)
    (hreach_b : in_range (ptrdiff (s._data + s._size) (site_b + N)) = true) :
    ∃ (r1 : Nat) (s1 : Trampoline) (r2 : Nat) (s2 : Trampoline) (v : Nat),
      f env1 s site_a D = some (r1, s1) ∧
      g env2 s1 site_b D = some (r2, s2) ∧
      site_target s1.mem site_a N % 2 ^ 64 = (v : Int) ∧
      site_target s2.mem site_b N % 2 ^ 64 = (v : Int) ∧
      (site_a + N ≤ site_b ∨ site_b + N ≤ site_a →
        site_target s2.mem site_a N % 2 ^ 64 = (v : Int)) ∧
      find (shape_index N s2) D = some v ∧
      allocated_size s2 = allocated_size s + vsize ∧
      allocated_size s2 = allocated_size s1 := by
  rcases hshape with ⟨hN, hv, hf, hg⟩ | ⟨hN, hv, hf, hg⟩
  · subst hN hv
    simp only [shape_index, if_true] at hnew ⊢
    have key : ∀ op1 op2, op1 % 256 = op1 → op2 % 256 = op2 →
        ∃ (r1 : Nat) (s1 : Trampoline) (r2 : Nat) (s2 : Trampoline) (v : Nat),
          write_branch 5 env1 s site_a D op1 = some (r1, s1) ∧
          write_branch 5 env2 s1 site_b D op2 = some (r2, s2) ∧
          site_target s1.mem site_a 5 % 2 ^ 64 = (v : Int) ∧
          site_target s2.mem site_b 5 % 2 ^ 64 = (v : Int) ∧
          (site_a + 5 ≤ site_b ∨ site_b + 5 ≤ site_a →
            site_target s2.mem site_a 5 % 2 ^ 64 = (v : Int)) ∧
          find s2._5branches D = some v ∧
          allocated_size s2 = allocated_size s + 14 ∧
          allocated_size s2 = allocated_size s1 := by
      intro op1 op2 h1 h2
      obtain ⟨r1, s1, r2, s2, e1, e2, t1, t2, t3, hi, z1, z2⟩ :=
        reuse5 env1 env2 s site_a site_b D op1 op2 h1 h2 hok hnew hfree hprot_a hprot_b
          hsite_a hsite_b hreach_a hreach_b
      exact ⟨r1, s1, r2, s2, _, e1, e2, t1, t2, t3, hi, by simp [allocated_size, z1, z2],
        by simp [allocated_size, z2]⟩
    rcases hf with hf | hf <;> rcases hg with hg | hg <;> subst hf <;> subst hg
    · exact key 0xE9 0xE9 rfl rfl
    · exact key 0xE9 0xE8 rfl rfl
    · exact key 0xE8 0xE9 rfl rfl
    · exact key 0xE8 0xE8 rfl rfl
  · subst hN hv
    simp only [shape_index, show ¬ (6 = 5) by decide, if_false] at hnew ⊢
    have key : ∀ op1 op2, op1 % 256 = op1 → op2 % 256 = op2 →
        ∃ (r1 : Nat) (s1 : Trampoline) (r2 : Nat) (s2 : Trampoline) (v : Nat),
          write_branch 6 env1 s site_a D op1 = some (r1, s1) ∧
          write_branch 6 env2 s1 site_b D op2 = some (r2, s2) ∧
          site_target s1.mem site_a 6 % 2 ^ 64 = (v : Int) ∧
          site_target s2.mem site_b 6 % 2 ^ 64 = (v : Int) ∧
          (site_a + 6 ≤ site_b ∨ site_b + 6 ≤ site_a →
            site_target s2.mem site_a 6 % 2 ^ 64 = (v : Int)) ∧
          find s2._6branches D = some v ∧
          allocated_size s2 = allocated_size s + 8 ∧
          allocated_size s2 = allocated_size s1 := by
      intro op1 op2 h1 h2
      obtain ⟨r1, s1, r2, s2, e1, e2, t1, t2, t3, hi, z1, z2⟩ :=
        reuse6 env1 env2 s site_a site_b D op1 op2 h1 h2 hok hnew hfree hprot_a hprot_b
          hsite_a hsite_b hreach_a hreach_b
      exact ⟨r1, s1, r2, s2, _, e1, e2, t1, t2, t3, hi, by simp [allocated_size, z1, z2],
        by simp [allocated_size, z2]⟩
    rcases hf with hf | hf <;> rcases hg with hg | hg <;> subst hf <;> subst hg
    · exact key 0x25 0x25 rfl rfl
    · exact key 0x25 0x15 rfl rfl
    · exact key 0x15 0x25 rfl rfl
    · exact key 0x15 0x15 rfl rfl

/-- C5 on a fresh pool at 0x20000: `write_branch_5` at 0x1000 and then
`write_call_5` at 0x1800, both for the same destination, leave 14 bytes
allocated and both sites point at 0x20000. -/
theorem veneer_reuse_witness :
    (((write_branch_5 Fixture.env Fixture.nopState 0x1000 0xAAAABBBBCCCCDDDD).bind
        (fun o => write_call_5 Fixture.env o.2 0x1800 0xAAAABBBBCCCCDDDD)).map
      (fun o => (site_target o.2.mem 0x1000 5, site_target o.2.mem 0x1800 5, o.2._size)))
      = some (0x20000, 0x20000, 14) ∧
    ∃ (r1 : Nat) (s1 : Trampoline) (r2 : Nat) (s2 : Trampoline) (v : Nat),
      write_branch_5 Fixture.env Fixture.nopState 0x1000 0xAAAABBBBCCCCDDDD = some (r1, s1) ∧
      write_call_5 Fixture.env s1 0x1800 0xAAAABBBBCCCCDDDD = some (r2, s2) ∧
      site_target s1.mem 0x1000 5 % 2 ^ 64 = (v : Int) ∧
      site_target s2.mem 0x1800 5 % 2 ^ 64 = (v : Int) ∧
      (0x1000 + 5 ≤ 0x1800 ∨ 0x1800 + 5 ≤ 0x1000 →
        site_target s2.mem 0x1000 5 % 2 ^ 64 = (v : Int)) ∧
      find (shape_index 5 s2) 0xAAAABBBBCCCCDDDD = some v ∧
      allocated_size s2 = allocated_size Fixture.nopState + 14 ∧
      allocated_size s2 = allocated_size s1 :=
  ⟨by decide,
   veneer_reuse 5 14 write_branch_5 write_call_5 Fixture.env Fixture.env Fixture.nopState
    0x1000 0x1800 0xAAAABBBBCCCCDDDD (Or.inl ⟨rfl, rfl, Or.inl rfl, Or.inr rfl⟩)
    (by decide) (by decide) (by decide) (by decide) (by decide) (by decide) (by decide)
    (by decide) (by decide) (by decide)⟩

end API

namespace API

/-! ## Patching the same site twice -/

theorem Trampoline.eq_of_fields (a b : Trampoline) (h1 : a.mem = b.mem)
    (h2 : a.deleted = b.deleted) (h3 : a._5branches = b._5branches)
    (h4 : a._6branches = b._6branches) (h5 : a._deleter = b._deleter)
    (h6 : a._data = b._data) (h7 : a._capacity = b._capacity) (h8 : a._size = b._size) :
    a = b := by
  cases a
  cases b
  simp only [Trampoline.mk.injEq]
  exact ⟨h1, h2, h3, h4, h5, h6, h7, h8⟩

/-- Repeating a site store and a veneer store changes nothing, whether or not
the site store is repeated. -/
theorem writes_idem (m : Nat → Nat) (site v : Nat) (X body : List Nat) (p : Bool) :
    writeBytes
      (if p = true then writeBytes (writeBytes (writeBytes m site X) v body) site X
       else writeBytes (writeBytes m site X) v body) v body
      = writeBytes (writeBytes m site X) v body := by
  funext x
  cases p <;> simp only [writeBytes_apply, Bool.false_eq_true, if_false, if_true] <;>
    split_ifs <;> rfl

/-- The state after a 5-byte patcher call that reached its veneer again offers
that veneer, at the same address. -/
theorem after_write_5branch (env : Env) (s s1 : Trampoline) (site dst op : Nat)
    (hok : PoolOk s) (hav : VeneerAvailable s s._5branches dst 14)
    (hreach : in_range (ptrdiff (veneer_addr s s._5branches dst) (site + 5)) = true)
    (h : write_5branch env s site dst op = some s1) :
    PoolOk s1 ∧ VeneerAvailable s1 s1._5branches dst 14 ∧
      veneer_addr s1 s1._5branches dst = veneer_addr s s._5branches dst ∧
      (find s1._5branches dst).isSome = true := by
  obtain ⟨hv1, hv2⟩ := veneer_addr_in_pool s s._5branches dst 14 hok (by norm_num) hav
  obtain ⟨s1', hw, -, hidx, -, hsz, -, hd, hc, -⟩ :=
    write_5branch_ok env s site dst op hok hav hreach
  rw [h] at hw
  cases hw
  have hva : veneer_addr s1 s1._5branches dst = veneer_addr s s._5branches dst := by
    simp only [veneer_addr, hidx]
  refine ⟨?_, ?_, hva, by rw [hidx]; rfl⟩
  · unfold PoolOk at hok ⊢
    unfold VeneerAvailable at hav
    rw [hsz, hd, hc]
    cases hfind : find s._5branches dst with
    | some p => simpa using hok
    | none =>
      rw [hfind] at hav
      simp only [Option.isSome_none, Bool.false_eq_true, if_false]
      omega
  · unfold VeneerAvailable
    rw [hidx, hd, hc]
    exact ⟨hv1, hv2⟩


/-- C6 (fails as stated): on a fresh pool at 0x20000, the second
`write_branch_5(0x1000, 0xAAAABBBBCCCCDDDD)` returns 0x20000, the address of the
veneer, which is not the destination. -/
theorem repatch_returns_not_dst :
    ((write_branch_5 Fixture.env Fixture.nopState 0x1000 0xAAAABBBBCCCCDDDD).bind
        (fun o => write_branch_5 Fixture.env o.2 0x1000 0xAAAABBBBCCCCDDDD)).map Prod.fst
      = some 0x20000 ∧
    ¬ (((write_branch_5 Fixture.env Fixture.nopState 0x1000 0xAAAABBBBCCCCDDDD).bind
        (fun o => write_branch_5 Fixture.env o.2 0x1000 0xAAAABBBBCCCCDDDD)).map Prod.fst
      = some 0xAAAABBBBCCCCDDDD) := by
  refine ⟨by decide, by decide⟩

/-- C6 (amended): after a first `write_branch_5(site, dst)` that took effect
(veneer available, protection change succeeded, site inside the address space
and outside the pool, veneer in reach), a second `write_branch_5(site, dst)`
returns, under any behaviour of the operating system, the address of the
5-veneer for `dst`: the pool address that the index holds for `dst` and that
the site now branches to. -/
theorem repatch_returns_veneer (env1 env2 : Env) (s : Trampoline) (site dst : Nat)
    (hok : PoolOk s) (hav : VeneerAvailable s s._5branches dst 14)
    (hprot : env1.virtualProtect site 5 = true)
    (hsite : SiteOutsidePool s site 5) (hspace : site + 5 ≤ 2 ^ 64)
    (hreach : in_range (ptrdiff (veneer_addr s s._5branches dst) (site + 5)) = true) :
    ∃ (r1 : Nat) (s1 : Trampoline) (r2 : Nat) (s2 : Trampoline),
      write_branch_5 env1 s site dst = some (r1, s1) ∧
      write_branch_5 env2 s1 site dst = some (r2, s2) ∧
      r2 = veneer_addr s s._5branches dst ∧
      find s1._5branches dst = some r2 ∧
      s._data ≤ r2 ∧ r2 + 14 ≤ s._data + s._capacity := by
  obtain ⟨hv1, hv2⟩ := veneer_addr_in_pool s s._5branches dst 14 hok (by norm_num) hav
  obtain ⟨r1, s1, hr1, -, -, ht1, hidx1, -⟩ :=
    patch5_effect env1 s site dst 0xE9 rfl hok hav hprot hsite hreach
  have hw1 : write_5branch env1 s site dst 0xE9 = some s1 := by
    unfold write_branch at hr1
    simp only [if_true] at hr1
    split at hr1
    · exact absurd hr1 (by simp)
    · rename_i s1' heq
      simp only [Option.some.injEq, Prod.mk.injEq] at hr1
      rw [heq, hr1.2]
  obtain ⟨hok1, hav1, hva1, -⟩ := after_write_5branch env1 s s1 site dst 0xE9 hok hav hreach hw1
  rw [← hva1] at hreach
  obtain ⟨s2, hw2, -⟩ := write_5branch_ok env2 s1 site dst 0xE9 hok1 hav1 hreach
  obtain ⟨r2, hr2⟩ := write_branch_5_eq env2 s1 s2 site dst 0xE9 hw2
  have hret := write_branch_ret 5 env2 s1 s2 site dst 0xE9 r2 hr2
  have hlt := hok.2.2
  have hr2v : r2 = veneer_addr s s._5branches dst := by
    have h1 : ((r2 : Nat) : Int) = site_target s1.mem site 5 % 2 ^ 64 := by
      rw [hret, wrap_add_ofInt64_toInt32]
      unfold site_target
      have hp : (site + 5 - 4) % 2 ^ 64 = site + 5 - 4 := Nat.mod_eq_of_lt (by omega)
      rw [hp]
      push_cast
      rfl
    rw [ht1] at h1
    exact_mod_cast h1
  refine ⟨r1, s1, r2, s2, hr1, hr2, hr2v, ?_, ?_, ?_⟩
  · rw [hr2v]
    exact hidx1
  · rw [hr2v]
    exact hv1
  · rw [hr2v]
    exact hv2

/-- C6 (amended) on a fresh pool at 0x20000 and the site 0x1000. -/
theorem repatch_returns_veneer_witness :
    ∃ (r1 : Nat) (s1 : Trampoline) (r2 : Nat) (s2 : Trampoline),
      write_branch_5 Fixture.env Fixture.nopState 0x1000 0xAAAABBBBCCCCDDDD = some (r1, s1) ∧
      write_branch_5 Fixture.envLocked s1 0x1000 0xAAAABBBBCCCCDDDD = some (r2, s2) ∧
      r2 = veneer_addr Fixture.nopState Fixture.nopState._5branches 0xAAAABBBBCCCCDDDD ∧
      find s1._5branches 0xAAAABBBBCCCCDDDD = some r2 ∧
      Fixture.nopState._data ≤ r2 ∧
      r2 + 14 ≤ Fixture.nopState._data + Fixture.nopState._capacity :=
  repatch_returns_veneer Fixture.env Fixture.envLocked Fixture.nopState 0x1000
    0xAAAABBBBCCCCDDDD (by decide) (by decide) (by decide) (by decide) (by decide) (by decide)

/-- C7: after a first `write_branch_5(site, dst)` that took effect (veneer
available, protection change succeeded, veneer in reach), a second
`write_branch_5(site, dst)` returns, under any behaviour of the operating
system, and the state it leaves is the state the first call left: memory
(site bytes and pool bytes included), `allocated_size`, both veneer indexes and
every other field are equal. -/
theorem repatch_same_state (env1 env2 : Env) (s : Trampoline) (site dst : Nat)
    (hok : PoolOk s) (hav : VeneerAvailable s s._5branches dst 14)
    (hprot : env1.virtualProtect site 5 = true)
    (hreach : in_range (ptrdiff (veneer_addr s s._5branches dst) (site + 5)) = true) :
    ∃ (r1 : Nat) (s1 : Trampoline) (r2 : Nat),
      write_branch_5 env1 s site dst = some (r1, s1) ∧
      write_branch_5 env2 s1 site dst = some (r2, s1) := by
  obtain ⟨s1, hw1, hmem1, -⟩ := write_5branch_ok env1 s site dst 0xE9 hok hav hreach
  obtain ⟨r1, hr1⟩ := write_branch_5_eq env1 s s1 site dst 0xE9 hw1
  obtain ⟨hok1, hav1, hva1, hsome⟩ :=
    after_write_5branch env1 s s1 site dst 0xE9 hok hav hreach hw1
  rw [← hva1] at hreach
  obtain ⟨s2, hw2, hmem2, -, hi2, hz2, h62, hd2, hc2, hdel2, hdd2⟩ :=
    write_5branch_ok env2 s1 site dst 0xE9 hok1 hav1 hreach
  rw [hsome] at hi2 hz2
  simp only [if_true] at hi2 hz2
  have hs : s2 = s1 := by
    apply Trampoline.eq_of_fields _ _ _ hdd2 hi2 h62 hdel2 hd2 hc2 hz2
    rw [hmem2, hva1, hmem1, if_pos hprot]
    exact writes_idem s.mem site _ _ _ (env2.virtualProtect site 5)
  obtain ⟨r2, hr2⟩ := write_branch_5_eq env2 s1 s2 site dst 0xE9 hw2
  rw [hs] at hr2
  exact ⟨r1, s1, r2, hr1, hr2⟩

/-- C7 on a fresh pool at 0x20000 and the site 0x1000. -/
theorem repatch_same_state_witness :
    ∃ (r1 : Nat) (s1 : Trampoline) (r2 : Nat),
      write_branch_5 Fixture.env Fixture.nopState 0x1000 0xAAAABBBBCCCCDDDD = some (r1, s1) ∧
      write_branch_5 Fixture.env s1 0x1000 0xAAAABBBBCCCCDDDD = some (r2, s1) :=
  repatch_same_state Fixture.env Fixture.env Fixture.nopState 0x1000 0xAAAABBBBCCCCDDDD
    (by decide) (by decide) (by decide) (by decide)

end API

namespace API

/-! ## Displacement out of range -/

/-- C9 (the code departs from it): with a debugger attached and the pool more
than 2 GiB from the site, `write_branch_6` and `write_call_6` return to the
caller after overwriting the 6 site bytes with an encoding whose truncated
displacement leads to address 0, not to the veneer at 0x7FF600000000; the
5-byte forms return with the site bytes unchanged. -/
theorem write_6branch_out_of_range_patches :
    in_range (ptrdiff 0x7FF600000000 (0x1000 + 6)) = false ∧
    readBytes Fixture.farState.mem 0x1000 6 = [0x90, 0x90, 0x90, 0x90, 0x90, 0x90] ∧
    (write_branch_6 Fixture.envDebugger Fixture.farState 0x1000 0xAAAABBBBCCCCDDDD).map
        (fun o => (readBytes o.2.mem 0x1000 6, site_target o.2.mem 0x1000 6 % 2 ^ 64,
          find o.2._6branches 0xAAAABBBBCCCCDDDD))
      = some ([0xFF, 0x25, 0xFA, 0xEF, 0xFF, 0xFF], 0, some 0x7FF600000000) ∧
    (write_call_6 Fixture.envDebugger Fixture.farState 0x1000 0xAAAABBBBCCCCDDDD).map
        (fun o => (readBytes o.2.mem 0x1000 6, site_target o.2.mem 0x1000 6 % 2 ^ 64,
          find o.2._6branches 0xAAAABBBBCCCCDDDD))
      = some ([0xFF, 0x15, 0xFA, 0xEF, 0xFF, 0xFF], 0, some 0x7FF600000000) ∧
    (write_branch_5 Fixture.envDebugger Fixture.farState 0x1000 0xAAAABBBBCCCCDDDD).map
        (fun o => readBytes o.2.mem 0x1000 5)
      = some [0x90, 0x90, 0x90, 0x90, 0x90] ∧
    (write_call_5 Fixture.envDebugger Fixture.farState 0x1000 0xAAAABBBBCCCCDDDD).map
        (fun o => readBytes o.2.mem 0x1000 5)
      = some [0x90, 0x90, 0x90, 0x90, 0x90] := by
  refine ⟨by decide, by decide, by decide, by decide, by decide, by decide⟩

end API

namespace API

/-! ## Bump pointer -/

/-- The pool counters are 64-bit values with `used ≤ capacity`. -/
theorem do_allocate_counters (env : Env) (s s1 : Trampoline) (n p : Nat)
    (hle : s._size ≤ s._capacity) (hcap : s._capacity < 2 ^ 64)
    (h : do_allocate env s n = some (p, s1)) :
    s1._capacity = s._capacity ∧ s1._data = s._data ∧ s._size ≤ s1._size ∧
      s1._size ≤ s1._capacity := by
  unfold do_allocate free_size at h
  split at h
  · split at h
    · simp only [Option.some.injEq, Prod.mk.injEq] at h
      rw [← h.2]
      exact ⟨rfl, rfl, le_refl _, hle⟩
    · exact absurd h (by simp)
  · rename_i hn
    simp only [Option.some.injEq, Prod.mk.injEq] at h
    rw [← h.2]
    refine ⟨rfl, rfl, ?_, ?_⟩ <;> simp only <;> omega

theorem veneer_counters (env : Env) (s s0 : Trampoline) (index idx : List (Nat × Nat))
    (a_dst n p : Nat) (hle : s._size ≤ s._capacity) (hcap : s._capacity < 2 ^ 64)
    (h : veneer env s index a_dst n = some (p, idx, s0)) :
    s0._capacity = s._capacity ∧ s0._data = s._data ∧ s._size ≤ s0._size ∧
      s0._size ≤ s0._capacity := by
  unfold veneer at h
  split at h
  · simp only [Option.some.injEq, Prod.mk.injEq] at h
    rw [← h.2.2]
    exact ⟨rfl, rfl, le_refl _, hle⟩
  · split at h
    · exact absurd h (by simp)
    · rename_i p1 s1 heq
      simp only [Option.some.injEq, Prod.mk.injEq] at h
      rw [← h.2.2]
      exact do_allocate_counters env s s1 n p1 hle hcap heq

theorem write_5branch_counters (env : Env) (s s1 : Trampoline) (site dst op : Nat)
    (hle : s._size ≤ s._capacity) (hcap : s._capacity < 2 ^ 64)
    (h : write_5branch env s site dst op = some s1) :
    s1._capacity = s._capacity ∧ s1._data = s._data ∧ s._size ≤ s1._size ∧
      s1._size ≤ s1._capacity := by
  unfold write_5branch at h
  split at h
  · exact absurd h (by simp)
  · rename_i mem idx s0 heq
    have hc := veneer_counters env s s0 _ idx dst 14 mem hle hcap heq
    simp only at h
    split at h
    · split at h
      · simp only [Option.some.injEq] at h
        rw [← h]
        exact hc
      · exact absurd h (by simp)
    · simp only [Option.some.injEq] at h
      rw [← h]
      exact hc

theorem write_6branch_counters (env : Env) (s s1 : Trampoline) (site dst modrm : Nat)
    (hle : s._size ≤ s._capacity) (hcap : s._capacity < 2 ^ 64)
    (h : write_6branch env s site dst modrm = some s1) :
    s1._capacity = s._capacity ∧ s1._data = s._data ∧ s._size ≤ s1._size ∧
      s1._size ≤ s1._capacity := by
  unfold write_6branch at h
  split at h
  · exact absurd h (by simp)
  · rename_i mem idx s0 heq
    have hc := veneer_counters env s s0 _ idx dst 8 mem hle hcap heq
    simp only at h
    split at h
    · exact absurd h (by simp)
    · simp only [Option.some.injEq] at h
      rw [← h]
      exact hc

theorem write_branch_counters (N : Nat) (env : Env) (s s1 : Trampoline) (site dst data r : Nat)
    (hle : s._size ≤ s._capacity) (hcap : s._capacity < 2 ^ 64)
    (h : write_branch N env s site dst data = some (r, s1)) :
    s1._capacity = s._capacity ∧ s1._data = s._data ∧ s._size ≤ s1._size ∧
      s1._size ≤ s1._capacity := by
  unfold write_branch at h
  simp only at h
  split at h
  · exact absurd h (by simp)
  · rename_i s2 heq
    simp only [Option.some.injEq, Prod.mk.injEq] at h
    rw [← h.2]
    by_cases hN : N = 5
    · rw [if_pos hN] at heq
      exact write_5branch_counters env s s2 site dst data hle hcap heq
    · rw [if_neg hN] at heq
      exact write_6branch_counters env s s2 site dst data hle hcap heq

theorem step_counters (s s1 : Trampoline) (hle : s._size ≤ s._capacity)
    (hcap : s._capacity < 2 ^ 64) (h : Step s s1) :
    s1._capacity = s._capacity ∧ s1._data = s._data ∧ s._size ≤ s1._size ∧
      s1._size ≤ s1._capacity := by
  cases h with
  | allocate env _ n p _ h => exact do_allocate_counters env s s1 n p hle hcap h
  | write_branch_5 env _ site dst r _ h =>
    exact write_branch_counters 5 env s s1 site dst 0xE9 r hle hcap h
  | write_branch_6 env _ site dst r _ h =>
    exact write_branch_counters 6 env s s1 site dst 0x25 r hle hcap h
  | write_call_5 env _ site dst r _ h =>
    exact write_branch_counters 5 env s s1 site dst 0xE8 r hle hcap h
  | write_call_6 env _ site dst r _ h =>
    exact write_branch_counters 6 env s s1 site dst 0x15 r hle hcap h

theorem reachable_counters (s : Trampoline) (h : Reachable s) :
    s._size ≤ s._capacity ∧ s._capacity < 2 ^ 64 := by
  induction h with
  | install s0 base size deleter hbase hsize =>
    simp only [set_trampoline, release]
    exact ⟨Nat.zero_le _, hsize⟩
  | step s s1 _ hstep ih =>
    obtain ⟨h1, -, -, h4⟩ := step_counters s s1 ih.1 ih.2 hstep
    rw [h1]
    rw [h1] at h4
    exact ⟨h4, ih.2⟩

/-- C10: in every state reached from an install by calls of `allocate` and of
the four patchers, `0 ≤ used ≤ capacity < 2 ^ 64` and
`allocated_size + free_size = capacity` as natural numbers (nothing wraps);
`allocate(n)` with `n ≤ free_size` returns the pointer `base + used` (computed
in 64 bits, and equal to `base + used` itself when the block ends below
`2 ^ 64`) and sets `used` to exactly `used + n`, changing nothing else; and no
call of `allocate` or of a patcher decreases `allocated_size`. -/
theorem bump_invariant (s : Trampoline) (h : Reachable s) :
    0 ≤ allocated_size s ∧ allocated_size s ≤ capacity s ∧ capacity s < 2 ^ 64 ∧
    allocated_size s + free_size s = capacity s ∧
    (∀ env n, n ≤ free_size s →
      allocate env s n
        = some ((s._data + s._size) % 2 ^ 64, { s with _size := s._size + n }) ∧
      (s._data + s._capacity < 2 ^ 64 → (s._data + s._size) % 2 ^ 64 = s._data + s._size)) ∧
    (∀ s1, Step s s1 → allocated_size s ≤ allocated_size s1 ∧ capacity s1 = capacity s) := by
  obtain ⟨hle, hcap⟩ := reachable_counters s h
  have hfree : free_size s = s._capacity - s._size := by
    unfold free_size
    omega
  refine ⟨Nat.zero_le _, hle, hcap, ?_, ?_, ?_⟩
  · simp only [allocated_size, capacity, hfree]
    omega
  · intro env n hn
    rw [hfree] at hn
    constructor
    · unfold allocate do_allocate
      rw [hfree, if_neg (by omega), Nat.mod_eq_of_lt (a := s._size + n) (by omega)]
    · intro hb
      exact Nat.mod_eq_of_lt (by omega)
  · intro s1 hstep
    obtain ⟨h1, -, h3, -⟩ := step_counters s s1 hle hcap hstep
    exact ⟨h3, h1⟩

/-- C10 on the state reached by installing a pool of 0x100 bytes at 0x20000 and
patching one site: 14 bytes are used and 242 are free. -/
theorem bump_invariant_witness :
    (allocated_size ((write_branch_5 Fixture.env Fixture.nopState 0x1000 0xAAAABBBBCCCCDDDD).get
        (by decide)).2 = 14 ∧
     free_size ((write_branch_5 Fixture.env Fixture.nopState 0x1000 0xAAAABBBBCCCCDDDD).get
        (by decide)).2 = 242) ∧
    allocated_size ((write_branch_5 Fixture.env Fixture.nopState 0x1000 0xAAAABBBBCCCCDDDD).get
        (by decide)).2 +
      free_size ((write_branch_5 Fixture.env Fixture.nopState 0x1000 0xAAAABBBBCCCCDDDD).get
        (by decide)).2 =
      capacity ((write_branch_5 Fixture.env Fixture.nopState 0x1000 0xAAAABBBBCCCCDDDD).get
        (by decide)).2 :=
  ⟨by decide,
   (bump_invariant _
    (Reachable.step Fixture.nopState _
      (Reachable.install (Trampoline.init (fun _ => 0x90)) 0x20000 0x100 none (by decide)
        (by decide))
      (Step.write_branch_5 Fixture.env Fixture.nopState 0x1000 0xAAAABBBBCCCCDDDD
        0xFFFFFFFF9090A095 _ (by rfl)))).2.2.2.1⟩

end API

namespace API

/-! ## Rounding to the allocation granularity -/

theorem rounddown_spec (n G : Nat) (hG : 0 < G) :
    detail.rounddown n G % G = 0 ∧ detail.rounddown n G ≤ n ∧ n < detail.rounddown n G + G := by
  have h := Nat.div_add_mod n G
  have hlt := Nat.mod_lt n hG
  have hv : detail.rounddown n G = G * (n / G) := by
    unfold detail.rounddown
    rw [if_neg (by omega)]
    simp only
    generalize n % G = r at *
    generalize G * (n / G) = q at *
    split <;> omega
  rw [hv]
  refine ⟨Nat.mul_mod_right _ _, ?_, ?_⟩
  · generalize n % G = r at *
    generalize G * (n / G) = q at *
    omega
  · generalize n % G = r at *
    generalize G * (n / G) = q at *
    omega

theorem roundup_spec (n G : Nat) (hG : 0 < G) (hn : n + G ≤ 2 ^ 64) :
    detail.roundup n G % G = 0 ∧ n ≤ detail.roundup n G ∧ detail.roundup n G < n + G := by
  have h := Nat.div_add_mod n G
  have hlt := Nat.mod_lt n hG
  unfold detail.roundup
  rw [if_neg (by omega)]
  simp only
  split
  · rename_i h0
    exact ⟨h0, le_refl _, by omega⟩
  · rename_i h0
    have hv : n + G - n % G = G * (n / G) + G := by omega
    have hmod : (n + G - n % G) % 2 ^ 64 = n + G - n % G := Nat.mod_eq_of_lt (by omega)
    rw [hmod]
    refine ⟨?_, by omega, by omega⟩
    rw [hv, Nat.add_mod_right, Nat.mul_mod_right]

theorem roundup_of_dvd (n G : Nat) (hG : 0 < G) (h : n % G = 0) : detail.roundup n G = n := by
  unfold detail.roundup
  rw [if_neg (by omega)]
  simp only
  rw [if_pos h]

/-- Below a multiple of the granularity, rounding up stays at or below it. -/
theorem roundup_le_of_lt (c hi G : Nat) (hG : 0 < G) (hc : c < hi) (hhi : hi % G = 0)
    (hlt : hi < 2 ^ 64) : c ≤ detail.roundup c G ∧ detail.roundup c G ≤ hi := by
  have hk : hi = G * (hi / G) := by
    have := Nat.div_add_mod hi G
    rw [hhi] at this
    omega
  have hq : c / G < hi / G := by
    rw [Nat.div_lt_iff_lt_mul hG, Nat.mul_comm, ← hk]
    exact hc
  have hle : G * (c / G + 1) ≤ hi := by
    rw [hk]
    exact Nat.mul_le_mul_left G hq
  have h := Nat.div_add_mod c G
  have hm := Nat.mod_lt c hG
  rw [Nat.mul_add, Nat.mul_one] at hle
  unfold detail.roundup
  rw [if_neg (by omega)]
  simp only
  split
  · omega
  · have hmod : (c + G - c % G) % 2 ^ 64 = c + G - c % G := Nat.mod_eq_of_lt (by omega)
    rw [hmod]
    omega

end API

namespace API

/-! ## Where the region finder places the pool -/

theorem do_create_loop_bound (os : MemoryMap) (size lo hi : Nat)
    (hG : 0 < os.granularity) (hq : QueryFromCursor os) (ha : AllocAtRequest os)
    (hlo : lo % os.granularity = 0) (hhi : hi % os.granularity = 0) (hhilt : hi < 2 ^ 64) :
    ∀ fuel c B, lo ≤ c → (c < hi ∨ c = lo) → do_create_loop os size hi fuel c = some B →
      B ≠ 0 → lo ≤ B ∧ (B ≤ hi ∨ B = lo) := by
  intro fuel
  induction fuel with
  | zero =>
    intro c B _ _ h
    simp [do_create_loop] at h
  | succ fuel ih =>
    intro c B hc1 hc2 h hB
    unfold do_create_loop at h
    cases hquery : os.virtualQuery c with
    | none =>
      rw [hquery] at h
      simp only [Option.some.injEq] at h
      exact absurd h.symm hB
    | some reg =>
      obtain ⟨base, len, isFree⟩ := reg
      rw [hquery] at h
      obtain ⟨hbase, hlen⟩ := hq c base len isFree hquery
      subst hbase
      simp only at h
      rw [Nat.mod_eq_of_lt hlen] at h
      have hrest : (if base + len < hi then do_create_loop os size hi fuel (base + len)
          else some 0) = some B → lo ≤ B ∧ (B ≤ hi ∨ B = lo) := by
        intro h2
        split at h2
        · rename_i hnext
          exact ih (base + len) B (by omega) (Or.inl hnext) h2 hB
        · simp only [Option.some.injEq] at h2
          exact absurd h2.symm hB
      by_cases hf : isFree = true
      · by_cases hcond : detail.roundup base os.granularity < base + len ∧
            base + len - detail.roundup base os.granularity ≥ size
        · rw [if_pos hf, if_pos hcond] at h
          by_cases hmem : os.virtualAlloc (detail.roundup base os.granularity) size ≠ 0
          · rw [if_pos hmem] at h
            simp only [Option.some.injEq] at h
            have hB3 := ha (detail.roundup base os.granularity) size hmem
            rw [h] at hB3
            rw [hB3]
            rcases hc2 with hlt | heq
            · obtain ⟨h1, h2⟩ := roundup_le_of_lt base hi os.granularity hG hlt hhi hhilt
              exact ⟨by omega, Or.inl h2⟩
            · rw [heq, roundup_of_dvd lo os.granularity hG hlo]
              exact ⟨le_refl _, Or.inr rfl⟩
          · rw [if_neg hmem] at h
            exact hrest h
        · rw [if_pos hf, if_neg hcond, if_neg (by simp)] at h
          exact hrest h
      · rw [if_neg hf, if_neg (by simp)] at h
        exact hrest h


theorem freeMap_queryFromCursor : QueryFromCursor Fixture.freeMap := by
  intro c base len isFree h
  simp only [Fixture.freeMap] at h
  split at h
  · simp only [Option.some.injEq, Prod.mk.injEq] at h
    obtain ⟨h1, h2, -⟩ := h
    subst h1 h2
    exact ⟨rfl, by omega⟩
  · exact absurd h (by simp)

theorem freeMap_allocAtRequest : AllocAtRequest Fixture.freeMap := by
  intro a n _
  rfl

/-- C8 (fails as stated): with anchor 4 GiB and 64 KiB granularity the search
returns (1) the base `anchor − 2 GiB` for a pool of 0x1000 bytes, so that
`|B − anchor| = 2 GiB`; (2) on a map whose first free region begins 64 KiB
below `anchor + 2 GiB`, a pool of 0x20000 bytes that ends above
`anchor + 2 GiB`; (3) on a map whose query reports a free region that begins
far below the cursor, the base 0x10000, almost 4 GiB from the anchor. -/
theorem pool_not_within_reach :
    (do_create Fixture.freeMap 1 0x1000 0x100000000 = some 0x80000000 ∧
      ¬ (|((0x80000000 : Nat) : Int) - (0x100000000 : Nat)| ≤ 2 ^ 31 - (0x1000 : Nat))) ∧
    (do_create Fixture.busyMap 2 0x20000 0x100000000 = some 0x17FFF0000 ∧
      ¬ (|((0x17FFF0000 : Nat) : Int) - (0x100000000 : Nat)| ≤ 2 ^ 31 - (0x20000 : Nat)) ∧
      0x100000000 + 2 ^ 31 < 0x17FFF0000 + 0x20000) ∧
    (do_create Fixture.wideMap 1 0x1000 0x100000000 = some 0x10000 ∧
      ¬ (|((0x10000 : Nat) : Int) - (0x100000000 : Nat)| ≤ 2 ^ 31)) := by
  refine ⟨⟨by decide, by norm_num⟩, ⟨by decide, by norm_num, by norm_num⟩,
    ⟨by decide, by norm_num⟩⟩

/-- C8 (amended): let the granularity be a positive 32-bit value, the anchor be
below `U64_MAX − 2 GiB`, every query report the region that begins at the
queried address and ends below `2 ^ 64`, and every successful reservation
return the address requested.  Whenever the region search returns a non-null
pool base `B` for a size > 0, `B` is at or above the lower scan bound and the
base lies within 2 GiB of the anchor: `|B − anchor| ≤ 2 GiB`. -/
theorem pool_base_within_2GiB (os : MemoryMap) (fuel size anchor B : Nat)
    (_hsize : 0 < size)
    (hG : 0 < os.granularity) (hG32 : os.granularity < 2 ^ 32)
    (hanchor : anchor + 2 ^ 31 < 2 ^ 64 - 1)
    (hq : QueryFromCursor os) (ha : AllocAtRequest os)
    (h : do_create os fuel size anchor = some B) (hB : B ≠ 0) :
    scan_min os anchor ≤ B ∧ |(B : Int) - (anchor : Int)| ≤ 2 ^ 31 := by
  have hmax : scan_max os anchor = detail.rounddown (anchor + 2 ^ 31) os.granularity := by
    unfold scan_max
    simp only
    rw [if_pos (by omega)]
    norm_num
  obtain ⟨hd1, hd2, hd3⟩ := rounddown_spec (anchor + 2 ^ 31) os.granularity hG
  rw [← hmax] at hd1 hd2 hd3
  have hlo : scan_min os anchor % os.granularity = 0 ∧ anchor ≤ scan_min os anchor + 2 ^ 31 ∧
      scan_min os anchor < anchor + 2 ^ 31 := by
    unfold scan_min
    simp only
    by_cases hge : anchor ≥ 2 ^ 30 * 2
    · rw [if_pos hge]
      obtain ⟨hu1, hu2, hu3⟩ :=
        roundup_spec (anchor - 2 ^ 30 * 2) os.granularity hG (by omega)
      exact ⟨hu1, by omega, by omega⟩
    · rw [if_neg hge]
      exact ⟨Nat.zero_mod _, by omega, by omega⟩
  obtain ⟨hl1, hl2, hl3⟩ := hlo
  unfold do_create at h
  obtain ⟨hb1, hb2⟩ := do_create_loop_bound os size (scan_min os anchor) (scan_max os anchor)
    hG hq ha hl1 hd1 (by omega) fuel (scan_min os anchor) B (le_refl _) (Or.inr rfl) h hB
  refine ⟨hb1, ?_⟩
  rw [abs_le]
  rcases hb2 with hb2 | hb2 <;> constructor <;> omega

/-- C8 (amended) at anchor 4 GiB: the search returns the base 2 GiB. -/
theorem pool_base_within_2GiB_witness :
    do_create Fixture.freeMap 1 0x1000 0x100000000 = some 0x80000000 ∧
    scan_min Fixture.freeMap 0x100000000 ≤ 0x80000000 ∧
    |((0x80000000 : Nat) : Int) - ((0x100000000 : Nat) : Int)| ≤ 2 ^ 31 :=
  ⟨by decide,
   pool_base_within_2GiB Fixture.freeMap 1 0x1000 0x100000000 0x80000000 (by decide)
    (by decide) (by decide) (by decide) freeMap_queryFromCursor freeMap_allocAtRequest
    (by decide) (by decide)⟩

end API

namespace API

/-! ## Exhaustion, install and scan bounds -/

/-- C11: for every state, every behaviour of the operating system and every
`n > free_size`, `allocate(n)` takes the fatal path: without a debugger it
never returns, and with a debugger attached it returns the null pointer; in
either case no pool memory is handed out and the state (`used`, `capacity`,
every byte of memory, both indexes) is the one before the call. -/
theorem allocate_exhausted (env : Env) (s : Trampoline) (n : Nat) (h : free_size s < n) :
    allocate env s n = (if env.debugger = true then some (0, s) else none) ∧
    (∀ p s1, allocate env s n = some (p, s1) →
      p = 0 ∧ s1 = s ∧ allocated_size s1 = allocated_size s ∧ capacity s1 = capacity s ∧
        s1.mem = s.mem) := by
  have h1 : allocate env s n = (if env.debugger = true then some (0, s) else none) := by
    unfold allocate do_allocate
    rw [if_pos h]
  refine ⟨h1, ?_⟩
  intro p s1 hp
  rw [h1] at hp
  split at hp
  · simp only [Option.some.injEq, Prod.mk.injEq] at hp
    obtain ⟨hp1, hp2⟩ := hp
    subst hp1 hp2
    exact ⟨rfl, rfl, rfl, rfl, rfl⟩
  · exact absurd hp (by simp)

/-- C11 on a fresh pool of 0x100 bytes: `allocate(0x101)` with a debugger
attached returns the null pointer and the state is unchanged; without a
debugger it has no result. -/
theorem allocate_exhausted_witness :
    free_size Fixture.nopState < 0x101 ∧
    (allocate Fixture.env Fixture.nopState 0x101).isNone = true ∧
    (allocate Fixture.envDebugger Fixture.nopState 0x101
        = (if Fixture.envDebugger.debugger = true then some (0, Fixture.nopState) else none) ∧
      (∀ p s1, allocate Fixture.envDebugger Fixture.nopState 0x101 = some (p, s1) →
        p = 0 ∧ s1 = Fixture.nopState ∧
          allocated_size s1 = allocated_size Fixture.nopState ∧
          capacity s1 = capacity Fixture.nopState ∧ s1.mem = Fixture.nopState.mem)) :=
  ⟨by decide, by decide,
   allocate_exhausted Fixture.envDebugger Fixture.nopState 0x101 (by decide)⟩

/-- C12: for every state, every non-null `base`, every `size` and every
releaser `r`, after `set_trampoline(base, size, r)` every byte of
`[base, base + size)` is `0xCC`, `used` is 0, `capacity` is `size`, the base is
`base`, the releaser is `r` and both veneer indexes are empty; if the prior
state had a non-null block and a releaser `d`, the record of releaser calls has
grown by exactly one call, of `d` with the prior base and prior capacity, and
otherwise no releaser has been called. -/
theorem set_trampoline_installs (s : Trampoline) (base size : Nat) (r : Option Nat)
    (hbase : base ≠ 0) :
    (∀ x, base ≤ x → x < base + size → read8 (set_trampoline s base size r).mem x = 0xCC) ∧
    allocated_size (set_trampoline s base size r) = 0 ∧
    capacity (set_trampoline s base size r) = size ∧
    (set_trampoline s base size r)._data = base ∧
    (set_trampoline s base size r)._deleter = r ∧
    (set_trampoline s base size r)._5branches = [] ∧
    (set_trampoline s base size r)._6branches = [] ∧
    (∀ d, s._data ≠ 0 → s._deleter = some d →
      (set_trampoline s base size r).deleted = s.deleted ++ [(d, s._data, s._capacity)]) ∧
    (s._data = 0 ∨ s._deleter = none → (set_trampoline s base size r).deleted = s.deleted) := by
  refine ⟨?_, rfl, rfl, rfl, rfl, rfl, rfl, ?_, ?_⟩
  · intro x h1 h2
    simp only [set_trampoline, release, if_pos hbase, read8, memset, if_pos (And.intro h1 h2)]
  · intro d hd hdel
    simp only [set_trampoline, release, if_pos hd, hdel]
  · intro h
    simp only [set_trampoline, release]
    rcases h with h | h
    · rw [if_neg (by simp [h])]
    · rw [h]
      split <;> rfl


/-- C12 on a pool at 0x20000 with the releaser 7, replaced by a block of 0x80
bytes at 0x30000 with the releaser 9: the releaser 7 is called once, with
0x20000 and 0x100, and the new block is filled with `0xCC`. -/
theorem set_trampoline_installs_witness :
    readBytes (set_trampoline Fixture.ownedState 0x30000 0x80 (some 9)).mem 0x30000 4
      = [0xCC, 0xCC, 0xCC, 0xCC] ∧
    (set_trampoline Fixture.ownedState 0x30000 0x80 (some 9)).deleted = [(7, 0x20000, 0x100)] ∧
    (set_trampoline Fixture.ownedState 0x30000 0x80 (some 9)).deleted
      = Fixture.ownedState.deleted ++
          [(7, Fixture.ownedState._data, Fixture.ownedState._capacity)] :=
  ⟨by decide, by decide,
   (set_trampoline_installs Fixture.ownedState 0x30000 0x80 (some 9) (by decide)).2.2.2.2.2.2.2.1
      7 (by decide) rfl⟩

theorem roundup_zero (G : Nat) : detail.roundup 0 G = 0 := by
  unfold detail.roundup
  split
  · rfl
  · simp

/-! ## Rounding as the specification means it -/

theorem rounddown_eq_spec (n G : Nat) (hG : 0 < G) :
    detail.rounddown n G = spec_rounddown n G := by
  have h := Nat.div_add_mod n G
  unfold detail.rounddown spec_rounddown
  rw [if_neg (by omega)]
  simp only
  split <;> omega

theorem spec_roundup_cases (n G : Nat) (hG : 0 < G) :
    spec_roundup n G = if n % G = 0 then n else n + G - n % G := by
  have h := Nat.div_add_mod n G
  have hlt := Nat.mod_lt n hG
  unfold spec_roundup
  split
  · rename_i h0
    have h1 : n + G - 1 = G * (n / G) + (G - 1) := by omega
    have h2 : (G - 1) / G = 0 := Nat.div_eq_of_lt (by omega)
    rw [h1, Nat.mul_add_div hG, h2, Nat.add_zero]
    omega
  · rename_i h0
    have h1 : n + G - 1 = G * (n / G + 1) + (n % G - 1) := by
      rw [Nat.mul_add, Nat.mul_one]
      omega
    have h2 : (n % G - 1) / G = 0 := Nat.div_eq_of_lt (by omega)
    rw [h1, Nat.mul_add_div hG, h2, Nat.add_zero, Nat.mul_add, Nat.mul_one]
    omega

/-- The specification's round-up is the least multiple at or above the value. -/
theorem spec_roundup_least (n G : Nat) (hG : 0 < G) :
    G ∣ spec_roundup n G ∧ n ≤ spec_roundup n G ∧
      ∀ m, G ∣ m → n ≤ m → spec_roundup n G ≤ m := by
  refine ⟨Dvd.intro _ rfl, ?_, ?_⟩
  · rw [spec_roundup_cases n G hG]
    have hlt := Nat.mod_lt n hG
    split <;> omega
  · intro m hm hnm
    obtain ⟨k, rfl⟩ := hm
    unfold spec_roundup
    apply Nat.mul_le_mul_left
    have : (n + G - 1) / G < k + 1 := by
      rw [Nat.div_lt_iff_lt_mul hG, Nat.add_mul, Nat.one_mul, Nat.mul_comm]
      omega
    omega

/-- The specification's round-down is the greatest multiple at or below the
value. -/
theorem spec_rounddown_greatest (n G : Nat) (hG : 0 < G) :
    G ∣ spec_rounddown n G ∧ spec_rounddown n G ≤ n ∧
      ∀ m, G ∣ m → m ≤ n → m ≤ spec_rounddown n G := by
  have h := Nat.div_add_mod n G
  refine ⟨Dvd.intro _ rfl, ?_, ?_⟩
  · unfold spec_rounddown
    omega
  · intro m hm hmn
    obtain ⟨k, rfl⟩ := hm
    unfold spec_rounddown
    apply Nat.mul_le_mul_left
    rw [Nat.le_div_iff_mul_le hG, Nat.mul_comm]
    exact hmn

/-- The code's round-up is the specification's wherever the latter fits in 64
bits. -/
theorem roundup_eq_spec (n G : Nat) (hG : 0 < G) (hfit : spec_roundup n G < 2 ^ 64) :
    detail.roundup n G = spec_roundup n G := by
  rw [spec_roundup_cases n G hG] at hfit ⊢
  unfold detail.roundup
  rw [if_neg (by omega)]
  simp only
  split
  · rfl
  · rename_i h0
    rw [if_neg h0] at hfit
    exact Nat.mod_eq_of_lt hfit

/-- C13 (fails as stated): for the anchor `U64_MAX` and 64 KiB granularity the
upper scan bound of the code is `U64_MAX` itself, not
`rounddown(U64_MAX, G) = 0xFFFFFFFFFFFF0000`; the same holds at the anchor
`U64_MAX - 2 GiB`, where the addition does not even saturate.  And for the
granularity 4294920955 and the anchor `U64_MAX` the lower scan bound of the
code is 2147432674, the 64-bit wrap of the round-up 18446744075856984290. -/
theorem scan_max_not_rounded :
    scan_max Fixture.freeMap (2 ^ 64 - 1) = 0xFFFFFFFFFFFFFFFF ∧
    spec_hi Fixture.freeMap.granularity (2 ^ 64 - 1) = 0xFFFFFFFFFFFF0000 ∧
    scan_max Fixture.freeMap (2 ^ 64 - 1 - 2 ^ 31) = 0xFFFFFFFFFFFFFFFF ∧
    spec_hi Fixture.freeMap.granularity (2 ^ 64 - 1 - 2 ^ 31) = 0xFFFFFFFFFFFF0000 ∧
    scan_min Fixture.coarseMap (2 ^ 64 - 1) = 2147432674 ∧
    spec_lo Fixture.coarseMap.granularity (2 ^ 64 - 1) = 18446744075856984290 := by
  refine ⟨by decide, by decide, by decide, by decide, by decide, by decide⟩

/-- C13 (amended): for every 64-bit anchor and every granularity `G > 0`, the
lower scan bound is `roundup(max(anchor - 2 GiB, 0), G)`, the least multiple of
`G` at or above the saturating difference, whenever that multiple is below
`2 ^ 64`, which it is for every `G ≤ 2 GiB`; the upper scan bound is
`rounddown(min(anchor + 2 GiB, U64_MAX), G) = rounddown(anchor + 2 GiB, G)`, the
greatest multiple of `G` at or below the sum, when `anchor < U64_MAX - 2 GiB`,
and it is `U64_MAX` itself, not rounded down, when `anchor ≥ U64_MAX - 2 GiB`. -/
theorem scan_bounds (os : MemoryMap) (anchor : Nat) (hanchor : anchor < 2 ^ 64)
    (hG : 0 < os.granularity) :
    (spec_lo os.granularity anchor < 2 ^ 64 →
      scan_min os anchor = spec_lo os.granularity anchor) ∧
    (os.granularity ≤ 2 ^ 31 → spec_lo os.granularity anchor < 2 ^ 64) ∧
    (anchor < 2 ^ 64 - 1 - 2 ^ 31 →
      scan_max os anchor = spec_rounddown (anchor + 2 ^ 31) os.granularity ∧
      scan_max os anchor = spec_hi os.granularity anchor) ∧
    (2 ^ 64 - 1 - 2 ^ 31 ≤ anchor → scan_max os anchor = 2 ^ 64 - 1) := by
  refine ⟨?_, ?_, ?_, ?_⟩
  · intro hfit
    unfold scan_min
    unfold spec_lo at hfit ⊢
    simp only
    by_cases h : anchor ≥ 2 ^ 30 * 2
    · rw [if_pos h]
      have e : Int.toNat (max ((anchor : Int) - 2 ^ 31) 0) = anchor - 2 ^ 30 * 2 := by omega
      rw [e] at hfit ⊢
      exact roundup_eq_spec _ _ hG hfit
    · rw [if_neg h]
      have e : Int.toNat (max ((anchor : Int) - 2 ^ 31) 0) = 0 := by omega
      rw [e] at hfit ⊢
      rw [← roundup_eq_spec 0 _ hG hfit, roundup_zero]
  · intro hsmall
    unfold spec_lo
    have hb : Int.toNat (max ((anchor : Int) - 2 ^ 31) 0) + os.granularity ≤ 2 ^ 64 := by
      omega
    rw [spec_roundup_cases _ _ hG]
    have hlt := Nat.mod_lt (Int.toNat (max ((anchor : Int) - 2 ^ 31) 0)) hG
    split <;> omega
  · intro h
    unfold scan_max spec_hi
    simp only
    rw [if_pos (by omega)]
    have h1 : anchor + 2 ^ 30 * 2 = anchor + 2 ^ 31 := by norm_num
    have h2 : min (anchor + 2 ^ 31) (2 ^ 64 - 1) = anchor + 2 ^ 31 := by omega
    rw [h1, h2, rounddown_eq_spec _ _ hG]
    exact ⟨rfl, rfl⟩
  · intro h
    unfold scan_max
    simp only
    rw [if_neg (by omega)]

/-- C13 (amended) at the anchor 4 GiB with 64 KiB granularity: the bounds are
2 GiB and 6 GiB. -/
theorem scan_bounds_witness :
    (scan_min Fixture.freeMap 0x100000000 = 0x80000000 ∧
      scan_max Fixture.freeMap 0x100000000 = 0x180000000 ∧
      spec_lo Fixture.freeMap.granularity 0x100000000 = 0x80000000 ∧
      spec_hi Fixture.freeMap.granularity 0x100000000 = 0x180000000) ∧
    (spec_lo Fixture.freeMap.granularity 0x100000000 < 2 ^ 64 →
      scan_min Fixture.freeMap 0x100000000 = spec_lo Fixture.freeMap.granularity 0x100000000) ∧
    (Fixture.freeMap.granularity ≤ 2 ^ 31 →
      spec_lo Fixture.freeMap.granularity 0x100000000 < 2 ^ 64) ∧
    (0x100000000 < 2 ^ 64 - 1 - 2 ^ 31 →
      scan_max Fixture.freeMap 0x100000000
        = spec_rounddown (0x100000000 + 2 ^ 31) Fixture.freeMap.granularity ∧
      scan_max Fixture.freeMap 0x100000000 = spec_hi Fixture.freeMap.granularity 0x100000000) ∧
    (2 ^ 64 - 1 - 2 ^ 31 ≤ 0x100000000 → scan_max Fixture.freeMap 0x100000000 = 2 ^ 64 - 1) :=
  ⟨by decide, scan_bounds Fixture.freeMap 0x100000000 (by decide) (by decide)⟩

end API

namespace API

/-! ## What the region finder returns -/

theorem do_create_loop_succ (os : MemoryMap) (size max fuel c : Nat) :
    do_create_loop os size max (fuel + 1) c =
      match os.virtualQuery c with
      | none => some 0
      | some (base, len, isFree) =>
        if region_alloc os size base len isFree ≠ 0 then
          some (region_alloc os size base len isFree)
        else if (base + len) % 2 ^ 64 < max then
          do_create_loop os size max fuel ((base + len) % 2 ^ 64)
        else some 0 := by
  rfl

theorem scan_cursors_succ (os : MemoryMap) (size max fuel c : Nat) :
    scan_cursors os size max (fuel + 1) c =
      c :: match os.virtualQuery c with
      | none => []
      | some (base, len, isFree) =>
        if region_alloc os size base len isFree ≠ 0 then []
        else if (base + len) % 2 ^ 64 < max then
          scan_cursors os size max fuel ((base + len) % 2 ^ 64)
        else [] := by
  rfl

/-- Why the granularity has to divide `2 ^ 64` below.  With granularity 100
and the anchor `U64_MAX`, on a map whose second cursor reports the free region
`[2 ^ 64 - 10, 2 ^ 64 - 5)`, the 64-bit round-up of the base wraps to 84, the
test of the loop passes and a reservation granted at 84 is returned: 84 is not
a multiple of 100 and lies outside the region.  No such granularity is reported
by a real system. -/
theorem do_create_returns_wrapped_address :
    do_create Fixture.oddMap 2 0x1000 (2 ^ 64 - 1) = some 84 ∧
    ¬ (84 % Fixture.oddMap.granularity = 0) ∧
    scan_cursors Fixture.oddMap 0x1000 (scan_max Fixture.oddMap (2 ^ 64 - 1)) 2
        (scan_min Fixture.oddMap (2 ^ 64 - 1))
      = [0xFFFFFFFF80000020, 0xFFFFFFFFFFFFFFF6] ∧
    Fixture.oddMap.virtualQuery 0xFFFFFFFF80000020
      = some (0xFFFFFFFF80000020, 0x7FFFFFD6, false) ∧
    Fixture.oddMap.virtualQuery 0xFFFFFFFFFFFFFFF6 = some (0xFFFFFFFFFFFFFFF6, 5, true) ∧
    ¬ (0xFFFFFFFFFFFFFFF6 ≤ 84) ∧
    ¬ (0x1000 ≤ 5) := by
  refine ⟨by decide, by decide, by decide, by decide, by decide, by decide, by decide⟩

end API

namespace API

/-! ## Termination of the scan -/

theorem do_create_loop_terminates (os : MemoryMap) (size max : Nat) (hreg : RegionsProper os) :
    ∀ n c0, max - c0 ≤ n →
      ∃ p, ∀ fuel, n < fuel → do_create_loop os size max fuel c0 = some p := by
  intro n
  induction n with
  | zero =>
    intro c0 hn
    cases hquery : os.virtualQuery c0 with
    | none =>
      refine ⟨0, ?_⟩
      intro fuel hf
      obtain ⟨f, rfl⟩ : ∃ f, fuel = f + 1 := ⟨fuel - 1, by omega⟩
      rw [do_create_loop_succ, hquery]
    | some reg =>
      obtain ⟨base, len, isFree⟩ := reg
      obtain ⟨h1, h2, h3⟩ := hreg c0 base len isFree hquery
      have hmod : (base + len) % 2 ^ 64 = base + len := Nat.mod_eq_of_lt h3
      by_cases hm : region_alloc os size base len isFree ≠ 0
      · refine ⟨region_alloc os size base len isFree, ?_⟩
        intro fuel hf
        obtain ⟨f, rfl⟩ : ∃ f, fuel = f + 1 := ⟨fuel - 1, by omega⟩
        rw [do_create_loop_succ, hquery]
        simp only
        rw [if_pos hm]
      · refine ⟨0, ?_⟩
        intro fuel hf
        obtain ⟨f, rfl⟩ : ∃ f, fuel = f + 1 := ⟨fuel - 1, by omega⟩
        rw [do_create_loop_succ, hquery]
        simp only
        rw [if_neg hm, hmod, if_neg (by omega)]
  | succ n ih =>
    intro c0 hn
    cases hquery : os.virtualQuery c0 with
    | none =>
      refine ⟨0, ?_⟩
      intro fuel hf
      obtain ⟨f, rfl⟩ : ∃ f, fuel = f + 1 := ⟨fuel - 1, by omega⟩
      rw [do_create_loop_succ, hquery]
    | some reg =>
      obtain ⟨base, len, isFree⟩ := reg
      obtain ⟨h1, h2, h3⟩ := hreg c0 base len isFree hquery
      have hmod : (base + len) % 2 ^ 64 = base + len := Nat.mod_eq_of_lt h3
      by_cases hm : region_alloc os size base len isFree ≠ 0
      · refine ⟨region_alloc os size base len isFree, ?_⟩
        intro fuel hf
        obtain ⟨f, rfl⟩ : ∃ f, fuel = f + 1 := ⟨fuel - 1, by omega⟩
        rw [do_create_loop_succ, hquery]
        simp only
        rw [if_pos hm]
      · by_cases hnext : base + len < max
        · obtain ⟨p, hp⟩ := ih (base + len) (by omega)
          refine ⟨p, ?_⟩
          intro fuel hf
          obtain ⟨f, rfl⟩ : ∃ f, fuel = f + 1 := ⟨fuel - 1, by omega⟩
          rw [do_create_loop_succ, hquery]
          simp only
          rw [if_neg hm, hmod, if_pos hnext]
          exact hp f (by omega)
        · refine ⟨0, ?_⟩
          intro fuel hf
          obtain ⟨f, rfl⟩ : ∃ f, fuel = f + 1 := ⟨fuel - 1, by omega⟩
          rw [do_create_loop_succ, hquery]
          simp only
          rw [if_neg hm, hmod, if_neg hnext]

theorem scan_cursors_increasing (os : MemoryMap) (size max : Nat) (hreg : RegionsProper os) :
    ∀ fuel c0, (∀ c ∈ scan_cursors os size max fuel c0, c0 ≤ c) ∧
      List.Pairwise (· < ·) (scan_cursors os size max fuel c0) := by
  intro fuel
  induction fuel with
  | zero =>
    intro c0
    simp [scan_cursors]
  | succ fuel ih =>
    intro c0
    rw [scan_cursors_succ]
    cases hquery : os.virtualQuery c0 with
    | none => simp
    | some reg =>
      obtain ⟨base, len, isFree⟩ := reg
      obtain ⟨h1, h2, h3⟩ := hreg c0 base len isFree hquery
      have hmod : (base + len) % 2 ^ 64 = base + len := Nat.mod_eq_of_lt h3
      simp only
      by_cases hm : region_alloc os size base len isFree ≠ 0
      · rw [if_pos hm]
        simp
      · rw [if_neg hm, hmod]
        by_cases hnext : base + len < max
        · rw [if_pos hnext]
          obtain ⟨ih1, ih2⟩ := ih (base + len)
          constructor
          · intro c hc
            rw [List.mem_cons] at hc
            rcases hc with hc | hc
            · omega
            · have := ih1 c hc
              omega
          · rw [List.pairwise_cons]
            refine ⟨?_, ih2⟩
            intro c hc
            have := ih1 c hc
            omega
        · rw [if_neg hnext]
          simp


theorem halvesMap_loops (size max : Nat) (hmax : 2 ^ 63 < max) :
    ∀ fuel, do_create_loop Fixture.halvesMap size max fuel 0 = none ∧
      do_create_loop Fixture.halvesMap size max fuel (2 ^ 63) = none := by
  have hra : ∀ base len, region_alloc Fixture.halvesMap size base len false = 0 := by
    intro base len
    simp [region_alloc]
  have q0 : Fixture.halvesMap.virtualQuery 0 = some (0, 2 ^ 63, false) := by decide
  have q1 : Fixture.halvesMap.virtualQuery (2 ^ 63) = some (2 ^ 63, 2 ^ 63, false) := by decide
  intro fuel
  induction fuel with
  | zero => exact ⟨rfl, rfl⟩
  | succ fuel ih =>
    constructor
    · rw [do_create_loop_succ, q0]
      simp only
      rw [if_neg (by rw [hra]; simp)]
      have e : (0 + 2 ^ 63) % 2 ^ 64 = 2 ^ 63 := by norm_num
      rw [e, if_pos hmax]
      exact ih.2
    · rw [do_create_loop_succ, q1]
      simp only
      rw [if_neg (by rw [hra]; simp)]
      have e : (2 ^ 63 + 2 ^ 63) % 2 ^ 64 = 0 := by norm_num
      rw [e, if_pos (by omega)]
      exact ih.1

/-- C15 (fails as stated): on a map of two regions of positive length, the
lower and the upper half of the address space, each reported for the addresses
it contains, and with the anchor `U64_MAX`, the cursor goes from
0xFFFFFFFF80000000 back to 0 (the end of the upper half wraps), then to
`2 ^ 63`, then back to 0 and so on, and `do_create` returns after no number of
iterations. -/
theorem scan_wraps_and_loops :
    (∀ c base len isFree, c < 2 ^ 64 →
      Fixture.halvesMap.virtualQuery c = some (base, len, isFree) →
      base ≤ c ∧ c < base + len ∧ 0 < len ∧ base + len ≤ 2 ^ 64) ∧
    scan_cursors Fixture.halvesMap 0x1000 (scan_max Fixture.halvesMap (2 ^ 64 - 1)) 5
        (scan_min Fixture.halvesMap (2 ^ 64 - 1))
      = [0xFFFFFFFF80000000, 0, 0x8000000000000000, 0, 0x8000000000000000] ∧
    (∀ fuel, do_create Fixture.halvesMap fuel 0x1000 (2 ^ 64 - 1) = none) := by
  refine ⟨?_, by decide, ?_⟩
  · intro c base len isFree hc h
    simp only [Fixture.halvesMap] at h
    split at h
    · simp only [Option.some.injEq, Prod.mk.injEq] at h
      obtain ⟨h1, h2, -⟩ := h
      subst h1 h2
      omega
    · simp only [Option.some.injEq, Prod.mk.injEq] at h
      obtain ⟨h1, h2, -⟩ := h
      subst h1 h2
      omega
  · intro fuel
    have hmin : scan_min Fixture.halvesMap (2 ^ 64 - 1) = 0xFFFFFFFF80000000 := by decide
    have hmax : scan_max Fixture.halvesMap (2 ^ 64 - 1) = 2 ^ 64 - 1 := by decide
    unfold do_create
    rw [hmin, hmax]
    cases fuel with
    | zero => rfl
    | succ f =>
      have q : Fixture.halvesMap.virtualQuery 0xFFFFFFFF80000000
          = some (2 ^ 63, 2 ^ 63, false) := by decide
      rw [do_create_loop_succ, q]
      simp only
      rw [if_neg (by simp [region_alloc])]
      have e : (2 ^ 63 + 2 ^ 63) % 2 ^ 64 = 0 := by norm_num
      rw [e, if_pos (by norm_num)]
      exact (halvesMap_loops 0x1000 (2 ^ 64 - 1) (by norm_num) f).1

theorem busyMap_regionsProper : RegionsProper Fixture.busyMap := by
  intro c base len isFree h
  simp only [Fixture.busyMap] at h
  split at h
  · simp only [Option.some.injEq, Prod.mk.injEq] at h
    obtain ⟨h1, h2, -⟩ := h
    subst h1 h2
    omega
  · split at h
    · simp only [Option.some.injEq, Prod.mk.injEq] at h
      obtain ⟨h1, h2, -⟩ := h
      subst h1 h2
      omega
    · exact absurd h (by simp)

/-- C15 (amended): for every anchor and size and every memory map whose
queries report a region that contains the queried address and ends below
`2 ^ 64` (such a region has positive length), the scan terminates: `do_create`
returns, with one and the same result, for every number of iterations allowed
above `hi - lo`, and the cursors queried are strictly increasing on every
iteration. -/
theorem scan_terminates (os : MemoryMap) (size anchor : Nat) (hreg : RegionsProper os) :
    (∃ p, ∀ fuel, scan_max os anchor - scan_min os anchor < fuel →
      do_create os fuel size anchor = some p) ∧
    (∀ fuel, List.Pairwise (· < ·)
      (scan_cursors os size (scan_max os anchor) fuel (scan_min os anchor))) := by
  constructor
  · exact do_create_loop_terminates os size (scan_max os anchor) hreg
      (scan_max os anchor - scan_min os anchor) (scan_min os anchor) (le_refl _)
  · intro fuel
    exact (scan_cursors_increasing os size (scan_max os anchor) hreg fuel
      (scan_min os anchor)).2

/-- C15 (amended) with the anchor 4 GiB on a map whose first region is in use:
the scan queries the cursors 0x80000000 and 0x17FFF0000 and returns the
second. -/
theorem scan_terminates_witness :
    (do_create Fixture.busyMap 2 0x20000 0x100000000 = some 0x17FFF0000 ∧
      scan_cursors Fixture.busyMap 0x20000 (scan_max Fixture.busyMap 0x100000000) 2
        (scan_min Fixture.busyMap 0x100000000) = [0x80000000, 0x17FFF0000]) ∧
    ((∃ p, ∀ fuel,
        scan_max Fixture.busyMap 0x100000000 - scan_min Fixture.busyMap 0x100000000 < fuel →
        do_create Fixture.busyMap fuel 0x20000 0x100000000 = some p) ∧
      (∀ fuel, List.Pairwise (· < ·)
        (scan_cursors Fixture.busyMap 0x20000 (scan_max Fixture.busyMap 0x100000000) fuel
          (scan_min Fixture.busyMap 0x100000000)))) :=
  ⟨by decide, scan_terminates Fixture.busyMap 0x20000 0x100000000 busyMap_regionsProper⟩

end API

namespace API

/-! ## The veneer indexes -/

theorem find_mem (l : List (Nat × Nat)) (d p : Nat) (h : find l d = some p) : (d, p) ∈ l := by
  unfold find at h
  induction l with
  | nil => simp [List.lookup] at h
  | cons e l ih =>
    obtain ⟨k, v⟩ := e
    rw [List.lookup_cons] at h
    by_cases hk : d = k
    · subst hk
      simp only [beq_self_eq_true, Option.some.injEq] at h
      subst h
      exact List.mem_cons_self _ _
    · have hb : (d == k) = false := by simpa using hk
      rw [hb] at h
      exact List.mem_cons_of_mem _ (ih h)

theorem read8_mod (m : Nat → Nat) (x : Nat) : read8 m x % 256 = read8 m x := by
  unfold read8
  omega

theorem read8_of_readBytes (m : Nat → Nat) (n p : Nat) (l : List Nat)
    (h : readBytes m p n = l) (x : Nat) (h1 : p ≤ x) (h2 : x < p + n) :
    read8 m x = l.getD (x - p) 0 := by
  induction n generalizing p l with
  | zero => omega
  | succ n ih =>
    rw [readBytes] at h
    subst h
    by_cases hx : x = p
    · subst hx
      simp
    · have e : x - p = (x - (p + 1)) + 1 := by omega
      rw [e, List.getD_cons_succ]
      exact ih (p + 1) _ rfl (by omega) (by omega)

theorem readBytes_congr8 (m m1 : Nat → Nat) (n a : Nat)
    (h : ∀ x, a ≤ x → x < a + n → read8 m1 x = read8 m x) :
    readBytes m1 a n = readBytes m a n := by
  induction n generalizing a with
  | zero => rfl
  | succ n ih =>
    simp only [readBytes]
    rw [h a (by omega) (by omega), ih (a + 1) (fun x h1 h2 => h x (by omega) (by omega))]

/-- Storing the bytes that are already there changes no byte. -/
theorem read8_writeBytes_of_readBytes (m : Nat → Nat) (p : Nat) (body : List Nat)
    (h : readBytes m p body.length = body) (x : Nat) :
    read8 (writeBytes m p body) x = read8 m x := by
  by_cases hx : p ≤ x ∧ x < p + body.length
  · have h1 := read8_of_readBytes m body.length p body h x hx.1 hx.2
    unfold read8 at h1 ⊢
    rw [writeBytes_apply, if_pos hx, ← h1]
    omega
  · unfold read8
    rw [writeBytes_apply, if_neg hx]

theorem entriesOk_keep (m m1 : Nat → Nat) (data used used1 : Nat) (index : List (Nat × Nat))
    (n : Nat) (body : Nat → List Nat) (hu : used ≤ used1)
    (hm : ∀ x, data ≤ x → x < data + used → read8 m1 x = read8 m x)
    (h : EntriesOk m data used index n body) : EntriesOk m1 data used1 index n body := by
  intro d p hmem
  obtain ⟨h1, h2, h3⟩ := h d p hmem
  refine ⟨h1, by omega, ?_⟩
  rw [← h3]
  exact readBytes_congr8 m m1 n p (fun x hx1 hx2 => hm x (by omega) (by omega))

theorem ranges_in_used (s : Trampoline) (hinv : VeneerInv s) :
    ∀ r ∈ veneer_ranges s, s._data ≤ r.1 ∧ r.1 + r.2 ≤ s._data + s._size := by
  obtain ⟨-, h5, h6, -⟩ := hinv
  intro r hr
  unfold veneer_ranges at hr
  rw [List.mem_append, List.mem_map, List.mem_map] at hr
  rcases hr with ⟨e, he, rfl⟩ | ⟨e, he, rfl⟩
  · obtain ⟨h1, h2, -⟩ := h5 e.1 e.2 he
    exact ⟨h1, h2⟩
  · obtain ⟨h1, h2, -⟩ := h6 e.1 e.2 he
    exact ⟨h1, h2⟩


theorem veneerAvailable_of_inv (s : Trampoline) (index : List (Nat × Nat)) (n : Nat)
    (body : Nat → List Nat) (site dst N : Nat) (hpool : PoolOk s)
    (hent : EntriesOk s.mem s._data s._size index n body)
    (hok : PatchOk s index site dst N n) : VeneerAvailable s index dst n := by
  unfold VeneerAvailable
  have hle := hpool.1
  cases hfind : find index dst with
  | some p =>
    obtain ⟨h1, h2, -⟩ := hent dst p (find_mem index dst p hfind)
    exact ⟨h1, by omega⟩
  | none =>
    have hf := free_size_eq s hpool
    rcases hok.1 with h | h
    · rw [hfind] at h
      exact absurd h (by simp)
    · simp only
      omega

/-- The core of the preservation proof, for either shape: the state after a
store at a site outside the pool and a store of the veneer body satisfies the
entry conditions again. -/
theorem entries_after_patch (s : Trampoline) (M m1 : Nat → Nat) (index other : List (Nat × Nat))
    (n n2 : Nat) (body body2 : Nat → List Nat) (dst : Nat) (hn : 0 < n)
    (hlen : ∀ d, (body d).length = n) (hbyte : ∀ d, (body d).map (· % 256) = body d)
    (hpool : PoolOk s)
    (hent : EntriesOk s.mem s._data s._size index n body)
    (hent2 : EntriesOk s.mem s._data s._size other n2 body2)
    (hav : VeneerAvailable s index dst n)
    (hM : ∀ x, s._data ≤ x → x < s._data + s._capacity → M x = s.mem x)
    (hm1 : m1 = writeBytes M (veneer_addr s index dst) (body dst)) :
    EntriesOk m1 s._data (if (find index dst).isSome then s._size else s._size + n)
      (if (find index dst).isSome then index else (dst, veneer_addr s index dst) :: index)
      n body ∧
    EntriesOk m1 s._data (if (find index dst).isSome then s._size else s._size + n)
      other n2 body2 ∧
    (∀ x, s._data ≤ x → x < s._data + s._size → read8 m1 x = read8 s.mem x) := by
  obtain ⟨hle, hcap, hblock⟩ := hpool
  unfold VeneerAvailable at hav
  cases hfind : find index dst with
  | some p =>
    rw [hfind] at hav
    have hv : veneer_addr s index dst = p := by simp [veneer_addr, hfind]
    rw [hv] at hm1
    obtain ⟨e1, e2, e3⟩ := hent dst p (find_mem index dst p hfind)
    have hMb : readBytes M p (body dst).length = body dst := by
      rw [hlen, ← e3]
      exact readBytes_congr M s.mem n p (fun x h1 h2 => hM x (by omega) (by omega))
    have hkeep : ∀ x, s._data ≤ x → x < s._data + s._size → read8 m1 x = read8 s.mem x := by
      intro x h1 h2
      rw [hm1, read8_writeBytes_of_readBytes M p (body dst) hMb x]
      unfold read8
      rw [hM x h1 (by omega)]
    simp only [Option.isSome_some, if_true]
    exact ⟨entriesOk_keep _ _ _ _ _ _ _ _ (le_refl _) hkeep hent,
      entriesOk_keep _ _ _ _ _ _ _ _ (le_refl _) hkeep hent2, hkeep⟩
  | none =>
    rw [hfind] at hav
    simp only at hav
    have hv : veneer_addr s index dst = s._data + s._size := by
      simp only [veneer_addr, hfind]
      rw [Nat.mod_eq_of_lt (by omega)]
    rw [hv] at hm1 ⊢
    have hkeep : ∀ x, s._data ≤ x → x < s._data + s._size → read8 m1 x = read8 s.mem x := by
      intro x h1 h2
      unfold read8
      rw [hm1, writeBytes_outside _ _ _ _ (Or.inl h2), hM x h1 (by omega)]
    simp only [Option.isSome_none, Bool.false_eq_true, if_false]
    refine ⟨?_, entriesOk_keep _ _ _ _ _ _ _ _ (by omega) hkeep hent2, hkeep⟩
    intro d p hmem
    rw [List.mem_cons] at hmem
    rcases hmem with hmem | hmem
    · simp only [Prod.mk.injEq] at hmem
      obtain ⟨hd, hp⟩ := hmem
      subst hd hp
      refine ⟨by omega, by omega, ?_⟩
      rw [hm1]
      have := readBytes_writeBytes_same (body d) M (s._data + s._size)
      rw [hlen, hbyte] at this
      exact this
    · exact entriesOk_keep _ _ _ _ _ _ _ _ (by omega) hkeep hent d p hmem


theorem veneer5_body_length (d : Nat) : (veneer5_body d).length = 14 := rfl

theorem veneer5_body_map_mod (d : Nat) : (veneer5_body d).map (· % 256) = veneer5_body d := by
  simp [veneer5_body, le64]

theorem le64_length (d : Nat) : (le64 d).length = 8 := rfl

theorem write_5branch_inv (env : Env) (s s1 : Trampoline) (site dst op : Nat)
    (hinv : VeneerInv s) (hsite : SiteOutsidePool s site 5)
    (hok : PatchOk s s._5branches site dst 5 14)
    (h : write_5branch env s site dst op = some s1) : VeneerInv s1 := by
  have hranges := ranges_in_used s hinv
  obtain ⟨hpool, h5, h6, hpw⟩ := hinv
  have hav := veneerAvailable_of_inv s s._5branches 14 veneer5_body site dst 5 hpool h5 hok
  obtain ⟨s2, hw, hmem, -, hi, hsz, h6eq, hd, hc, -, -⟩ :=
    write_5branch_ok env s site dst op hpool hav hok.2
  rw [h] at hw
  simp only [Option.some.injEq] at hw
  subst hw
  unfold SiteOutsidePool at hsite
  have hM : ∀ x, s._data ≤ x → x < s._data + s._capacity →
      (if env.virtualProtect site 5 = true then
        writeBytes s.mem site
          (op % 256 :: le32 (ofInt32 (ptrdiff (veneer_addr s s._5branches dst) (site + 5))))
       else s.mem) x = s.mem x := by
    intro x h1 h2
    split
    · exact writeBytes_outside _ _ _ _
        (by simp only [List.length_cons, le32, List.length_nil]; omega)
    · rfl
  obtain ⟨e5, e6, -⟩ := entries_after_patch s _ s1.mem s._5branches s._6branches 14 8
    veneer5_body le64 dst (by norm_num) veneer5_body_length veneer5_body_map_mod hpool h5 h6
    hav hM hmem
  have hav2 := hav
  unfold VeneerAvailable at hav2
  obtain ⟨hle, hcap, hblock⟩ := hpool
  refine ⟨?_, ?_, ?_, ?_⟩
  · unfold PoolOk
    rw [hsz, hd, hc]
    split
    · exact ⟨hle, hcap, hblock⟩
    · rename_i hnone
      have : find s._5branches dst = none := by
        cases hf : find s._5branches dst with
        | none => rfl
        | some p => rw [hf] at hnone; exact absurd rfl hnone
      rw [this] at hav2
      simp only at hav2
      exact ⟨hav2, hcap, hblock⟩
  · rw [hsz, hd, hi]
    exact e5
  · rw [hsz, hd, h6eq]
    exact e6
  · unfold veneer_ranges
    rw [hi, h6eq]
    cases hf : find s._5branches dst with
    | some p =>
      simp only [Option.isSome_some, if_true]
      exact hpw
    | none =>
      simp only [Option.isSome_none, Bool.false_eq_true, if_false, List.map_cons,
        List.cons_append]
      rw [List.pairwise_cons]
      refine ⟨?_, hpw⟩
      intro r hr
      obtain ⟨-, hr2⟩ := hranges r hr
      right
      have hv : veneer_addr s s._5branches dst = s._data + s._size := by
        simp only [veneer_addr, hf]
        rw [hf] at hav2
        simp only at hav2
        rw [Nat.mod_eq_of_lt (by omega)]
      simp only [hv]
      exact hr2

theorem write_6branch_inv (env : Env) (s s1 : Trampoline) (site dst modrm : Nat)
    (hinv : VeneerInv s) (hsite : SiteOutsidePool s site 6)
    (hok : PatchOk s s._6branches site dst 6 8)
    (h : write_6branch env s site dst modrm = some s1) : VeneerInv s1 := by
  have hranges := ranges_in_used s hinv
  obtain ⟨hpool, h5, h6, hpw⟩ := hinv
  have hav := veneerAvailable_of_inv s s._6branches 8 le64 site dst 6 hpool h6 hok
  obtain ⟨s2, hw, hmem, -, hi, hsz, h5eq, hd, hc, -, -⟩ :=
    write_6branch_ok env s site dst modrm hpool hav hok.2
  rw [h] at hw
  simp only [Option.some.injEq] at hw
  subst hw
  unfold SiteOutsidePool at hsite
  have hM : ∀ x, s._data ≤ x → x < s._data + s._capacity →
      (if env.virtualProtect site 6 = true then
        writeBytes s.mem site
          (0xFF :: modrm % 256 ::
            le32 (ofInt32 (ptrdiff (veneer_addr s s._6branches dst) (site + 6))))
       else s.mem) x = s.mem x := by
    intro x h1 h2
    split
    · exact writeBytes_outside _ _ _ _
        (by simp only [List.length_cons, le32, List.length_nil]; omega)
    · rfl
  obtain ⟨e6, e5, -⟩ := entries_after_patch s _ s1.mem s._6branches s._5branches 8 14
    le64 veneer5_body dst (by norm_num) le64_length le64_map_mod hpool h6 h5
    hav hM hmem
  have hav2 := hav
  unfold VeneerAvailable at hav2
  obtain ⟨hle, hcap, hblock⟩ := hpool
  refine ⟨?_, ?_, ?_, ?_⟩
  · unfold PoolOk
    rw [hsz, hd, hc]
    split
    · exact ⟨hle, hcap, hblock⟩
    · rename_i hnone
      have : find s._6branches dst = none := by
        cases hf : find s._6branches dst with
        | none => rfl
        | some p => rw [hf] at hnone; exact absurd rfl hnone
      rw [this] at hav2
      simp only at hav2
      exact ⟨hav2, hcap, hblock⟩
  · rw [hsz, hd, h5eq]
    exact e5
  · rw [hsz, hd, hi]
    exact e6
  · unfold veneer_ranges
    rw [hi, h5eq]
    cases hf : find s._6branches dst with
    | some p =>
      simp only [Option.isSome_some, if_true]
      exact hpw
    | none =>
      simp only [Option.isSome_none, Bool.false_eq_true, if_false, List.map_cons]
      unfold veneer_ranges at hpw hranges
      rw [List.pairwise_append] at hpw ⊢
      obtain ⟨p1, p2, p3⟩ := hpw
      have hv : veneer_addr s s._6branches dst = s._data + s._size := by
        simp only [veneer_addr, hf]
        rw [hf] at hav2
        simp only at hav2
        rw [Nat.mod_eq_of_lt (by omega)]
      refine ⟨p1, ?_, ?_⟩
      · rw [List.pairwise_cons]
        refine ⟨?_, p2⟩
        intro r hr
        obtain ⟨-, hr2⟩ := hranges r (List.mem_append_right _ hr)
        right
        simp only [hv]
        exact hr2
      · intro a ha b hb
        rw [List.mem_cons] at hb
        rcases hb with hb | hb
        · obtain ⟨-, hr2⟩ := hranges a (List.mem_append_left _ ha)
          left
          rw [hb]
          simp only [hv]
          exact hr2
        · exact p3 a ha b hb


theorem write_branch_some (N : Nat) (env : Env) (s s1 : Trampoline) (site dst data r : Nat)
    (h : write_branch N env s site dst data = some (r, s1)) :
    (N = 5 → write_5branch env s site dst data = some s1) ∧
    (N ≠ 5 → write_6branch env s site dst data = some s1) := by
  unfold write_branch at h
  simp only at h
  split at h
  · exact absurd h (by simp)
  · rename_i s2 heq
    simp only [Option.some.injEq, Prod.mk.injEq] at h
    rw [← h.2]
    constructor
    · intro hN
      rw [if_pos hN] at heq
      exact heq
    · intro hN
      rw [if_neg hN] at heq
      exact heq

theorem patchStep_inv (s s1 : Trampoline) (hinv : VeneerInv s) (h : PatchStep s s1) :
    VeneerInv s1 := by
  cases h with
  | write_branch_5 env _ site dst r _ hsite hok h =>
    exact write_5branch_inv env s s1 site dst 0xE9 hinv hsite hok
      ((write_branch_some 5 env s s1 site dst 0xE9 r h).1 rfl)
  | write_call_5 env _ site dst r _ hsite hok h =>
    exact write_5branch_inv env s s1 site dst 0xE8 hinv hsite hok
      ((write_branch_some 5 env s s1 site dst 0xE8 r h).1 rfl)
  | write_branch_6 env _ site dst r _ hsite hok h =>
    exact write_6branch_inv env s s1 site dst 0x25 hinv hsite hok
      ((write_branch_some 6 env s s1 site dst 0x25 r h).2 (by decide))
  | write_call_6 env _ site dst r _ hsite hok h =>
    exact write_6branch_inv env s s1 site dst 0x15 hinv hsite hok
      ((write_branch_some 6 env s s1 site dst 0x15 r h).2 (by decide))

theorem patchReachable_inv (s : Trampoline) (h : PatchReachable s) : VeneerInv s := by
  induction h with
  | install s0 base size deleter hsize hblock =>
    refine ⟨⟨Nat.zero_le _, hsize, hblock⟩, ?_, ?_, ?_⟩
    · intro d p hmem
      simp [set_trampoline, release] at hmem
    · intro d p hmem
      simp [set_trampoline, release] at hmem
    · simp [veneer_ranges, set_trampoline, release]
  | step s s1 _ hstep ih => exact patchStep_inv s s1 ih hstep

/-! ## Index entries are never removed or re-pointed -/

theorem do_allocate_indexes (env : Env) (s s1 : Trampoline) (n p : Nat)
    (h : do_allocate env s n = some (p, s1)) :
    s1._5branches = s._5branches ∧ s1._6branches = s._6branches := by
  unfold do_allocate at h
  split at h
  · split at h
    · simp only [Option.some.injEq, Prod.mk.injEq] at h
      rw [← h.2]
      exact ⟨rfl, rfl⟩
    · exact absurd h (by simp)
  · simp only [Option.some.injEq, Prod.mk.injEq] at h
    rw [← h.2]
    exact ⟨rfl, rfl⟩

theorem veneer_indexes (env : Env) (s s0 : Trampoline) (index idx : List (Nat × Nat))
    (dst n p : Nat) (h : veneer env s index dst n = some (p, idx, s0)) :
    (∀ d q, find index d = some q → find idx d = some q) ∧
      s0._5branches = s._5branches ∧ s0._6branches = s._6branches := by
  unfold veneer at h
  cases hfind : find index dst with
  | some q0 =>
    rw [hfind] at h
    simp only [Option.some.injEq, Prod.mk.injEq] at h
    obtain ⟨-, h2, h3⟩ := h
    subst h2 h3
    exact ⟨fun _ _ hq => hq, rfl, rfl⟩
  | none =>
    rw [hfind] at h
    simp only at h
    split at h
    · exact absurd h (by simp)
    · rename_i p1 s2 heq
      simp only [Option.some.injEq, Prod.mk.injEq] at h
      obtain ⟨-, h2, h3⟩ := h
      subst h2 h3
      obtain ⟨a1, a2⟩ := do_allocate_indexes env s s2 n p1 heq
      refine ⟨?_, a1, a2⟩
      intro d q hq
      unfold emplace
      rw [hfind]
      simp only
      unfold find at hq hfind ⊢
      rw [List.lookup_cons]
      by_cases hd : d = dst
      · subst hd
        rw [hfind] at hq
        exact absurd hq (by simp)
      · have hb : (d == dst) = false := by simpa using hd
        rw [hb]
        exact hq

theorem write_5branch_indexes (env : Env) (s s1 : Trampoline) (site dst op : Nat)
    (h : write_5branch env s site dst op = some s1) :
    (∀ d q, find s._5branches d = some q → find s1._5branches d = some q) ∧
      s1._6branches = s._6branches := by
  unfold write_5branch at h
  split at h
  · exact absurd h (by simp)
  · rename_i mem idx s0 heq
    obtain ⟨v1, -, v3⟩ := veneer_indexes env s s0 _ idx dst 14 mem heq
    simp only at h
    split at h
    · split at h
      · simp only [Option.some.injEq] at h
        rw [← h]
        exact ⟨v1, v3⟩
      · exact absurd h (by simp)
    · simp only [Option.some.injEq] at h
      rw [← h]
      exact ⟨v1, v3⟩

theorem write_6branch_indexes (env : Env) (s s1 : Trampoline) (site dst modrm : Nat)
    (h : write_6branch env s site dst modrm = some s1) :
    (∀ d q, find s._6branches d = some q → find s1._6branches d = some q) ∧
      s1._5branches = s._5branches := by
  unfold write_6branch at h
  split at h
  · exact absurd h (by simp)
  · rename_i mem idx s0 heq
    obtain ⟨v1, v2, -⟩ := veneer_indexes env s s0 _ idx dst 8 mem heq
    simp only at h
    split at h
    · exact absurd h (by simp)
    · simp only [Option.some.injEq] at h
      rw [← h]
      exact ⟨v1, v2⟩

theorem write_branch_indexes (N : Nat) (env : Env) (s s1 : Trampoline) (site dst data r : Nat)
    (h : write_branch N env s site dst data = some (r, s1)) :
    (∀ d q, find s._5branches d = some q → find s1._5branches d = some q) ∧
    (∀ d q, find s._6branches d = some q → find s1._6branches d = some q) := by
  obtain ⟨h5, h6⟩ := write_branch_some N env s s1 site dst data r h
  by_cases hN : N = 5
  · obtain ⟨a, b⟩ := write_5branch_indexes env s s1 site dst data (h5 hN)
    refine ⟨a, ?_⟩
    rw [b]
    exact fun _ _ hq => hq
  · obtain ⟨a, b⟩ := write_6branch_indexes env s s1 site dst data (h6 hN)
    refine ⟨?_, a⟩
    rw [b]
    exact fun _ _ hq => hq

theorem step_indexes (s s1 : Trampoline) (h : Step s s1) :
    (∀ d q, find s._5branches d = some q → find s1._5branches d = some q) ∧
    (∀ d q, find s._6branches d = some q → find s1._6branches d = some q) := by
  cases h with
  | allocate env _ n p _ h =>
    obtain ⟨a, b⟩ := do_allocate_indexes env s s1 n p h
    rw [a, b]
    exact ⟨fun _ _ hq => hq, fun _ _ hq => hq⟩
  | write_branch_5 env _ site dst r _ h => exact write_branch_indexes 5 env s s1 site dst 0xE9 r h
  | write_branch_6 env _ site dst r _ h => exact write_branch_indexes 6 env s s1 site dst 0x25 r h
  | write_call_5 env _ site dst r _ h => exact write_branch_indexes 5 env s s1 site dst 0xE8 r h
  | write_call_6 env _ site dst r _ h => exact write_branch_indexes 6 env s s1 site dst 0x15 r h


/-- C16: in every state reached from the install of a block of the address
space by successful patcher calls (no fatal path taken, whatever the
protection change does) whose sites lie outside the pool, each entry `(d, p)`
of the 5-veneer index satisfies `base ≤ p`, `p + 14 ≤ base + used` and the 14
bytes at `p` are `FF 25 00 00 00 00` followed by `d` little-endian; each entry
`(d, p)` of the 6-veneer index satisfies `base ≤ p`, `p + 8 ≤ base + used` and
the 8 bytes at `p` are `d` little-endian; the byte ranges of all indexed
veneers are pairwise disjoint; and no returning call of `allocate` or of a
patcher removes or re-points an entry of either index. -/
theorem veneer_index_invariant (s : Trampoline) (h : PatchReachable s) :
    (∀ d p, (d, p) ∈ s._5branches →
      s._data ≤ p ∧ p + 14 ≤ s._data + allocated_size s ∧
      readBytes s.mem p 14 = [0xFF, 0x25, 0x00, 0x00, 0x00, 0x00] ++ le64 d) ∧
    (∀ d p, (d, p) ∈ s._6branches →
      s._data ≤ p ∧ p + 8 ≤ s._data + allocated_size s ∧ readBytes s.mem p 8 = le64 d) ∧
    List.Pairwise RangesDisjoint (veneer_ranges s) ∧
    (∀ s1, Step s s1 →
      (∀ d p, find s._5branches d = some p → find s1._5branches d = some p) ∧
      (∀ d p, find s._6branches d = some p → find s1._6branches d = some p)) := by
  obtain ⟨-, h5, h6, hpw⟩ := patchReachable_inv s h
  exact ⟨h5, h6, hpw, fun s1 hstep => step_indexes s s1 hstep⟩

/-- C16 on the state left by one `write_branch_5` on a fresh pool at 0x20000:
the index maps the destination to 0x20000, where the veneer body stands. -/
theorem veneer_index_invariant_witness :
    (Fixture.patchedState._5branches = [(0xAAAABBBBCCCCDDDD, 0x20000)] ∧
      allocated_size Fixture.patchedState = 14) ∧
    (∀ d p, (d, p) ∈ Fixture.patchedState._5branches →
      Fixture.patchedState._data ≤ p ∧
      p + 14 ≤ Fixture.patchedState._data + allocated_size Fixture.patchedState ∧
      readBytes Fixture.patchedState.mem p 14
        = [0xFF, 0x25, 0x00, 0x00, 0x00, 0x00] ++ le64 d) :=
  ⟨by decide,
   (veneer_index_invariant Fixture.patchedState
    (PatchReachable.step Fixture.nopState Fixture.patchedState
      (PatchReachable.install (Trampoline.init (fun _ => 0x90)) 0x20000 0x100 none (by decide)
        (by decide))
      (PatchStep.write_branch_5 Fixture.env Fixture.nopState 0x1000 0xAAAABBBBCCCCDDDD
        0xFFFFFFFF9090A095 Fixture.patchedState (by decide) (by decide) (by rfl)))).1⟩

end API
